/-
  Verification development for the festivals-in-morocco repository.

  Shallow embedding of the ingestion / deduplication / search-sync code:
  - the text normalizer, city matcher and fingerprint-based deduplication
    resolver of the ingestion pipeline document,
  - the confidence scorer,
  - the Typesense search-index synchronizer (fullReindex, indexEvent,
    removeFromIndex),
  - the canonical type unions and the taxonomy enum,
  - the Supabase sheets client (fetchEvents cache, getUpcomingEvents).

  Strings are modelled as `List Char`.  The two Unicode-engine operations the
  code delegates to the JavaScript runtime — `String.prototype.toLowerCase`
  and `String.prototype.normalize('NFD')` — are passed in as function
  parameters (`lower : Char → Char`, `nfd : Char → List Char`); theorems that
  need them only assume their Unicode-specified behaviour on the ASCII output
  alphabet, and concrete witnesses instantiate them with ASCII versions that
  agree with the runtime on every code point the witness exercises.
  Character classes are written over `Char.toNat` code points.
-/
import Mathlib

/-- Code-point test for the JavaScript `\s` class (ECMA-262 WhiteSpace and
LineTerminator), used by `replace(/\s+/g, ' ')` and `trim()`. -/
def isJsSpace (c : Char) : Bool :=
  c.toNat == 0x9 || c.toNat == 0xa || c.toNat == 0xb || c.toNat == 0xc ||
  c.toNat == 0xd || c.toNat == 0x20 || c.toNat == 0xa0 || c.toNat == 0x1680 ||
  (0x2000 ≤ c.toNat && c.toNat ≤ 0x200a) || c.toNat == 0x2028 ||
  c.toNat == 0x2029 || c.toNat == 0x202f || c.toNat == 0x205f ||
  c.toNat == 0x3000 || c.toNat == 0xfeff

/-- Combining-mark range stripped by `replace(/[̀-ͯ]/g, '')`. -/
def isCombiningMark (c : Char) : Bool :=
  0x300 ≤ c.toNat && c.toNat ≤ 0x36f

/-- Lower-case ASCII letter (`a`–`z`). -/
def isLowerAlpha (c : Char) : Bool :=
  0x61 ≤ c.toNat && c.toNat ≤ 0x7a

/-- ASCII digit (`0`–`9`), the JavaScript `\d` class. -/
def isDigitChar (c : Char) : Bool :=
  0x30 ≤ c.toNat && c.toNat ≤ 0x39

/-- Character kept by `replace(/[^a-z0-9\s]/g, '')`. -/
def isKeepChar (c : Char) : Bool :=
  isLowerAlpha c || isDigitChar c || isJsSpace c

/-- Characters that can occur in a fully normalized name: lower-case ASCII
letters, ASCII digits, and the plain space emitted by whitespace collapse. -/
def isOutChar (c : Char) : Bool :=
  isLowerAlpha c || isDigitChar c || c.toNat == 32

/-- One pass of `replace(/festival|fest|edition|\d{4}/gi, '')`: left-to-right
scan; at each position the alternatives are tried in the order they appear in
the regex, a match is removed and scanning resumes after it.  The `/i` flag is
inert because the string was already lower-cased by the preceding stage. -/
def removeNoise (l : List Char) : List Char :=
  match l with
  | [] => []
  | c :: cs =>
    if "festival".toList.isPrefixOf (c :: cs) then
      removeNoise ((c :: cs).drop 8)
    else if "fest".toList.isPrefixOf (c :: cs) then
      removeNoise ((c :: cs).drop 4)
    else if "edition".toList.isPrefixOf (c :: cs) then
      removeNoise ((c :: cs).drop 7)
    else if 4 ≤ (c :: cs).length && ((c :: cs).take 4).all isDigitChar then
      removeNoise ((c :: cs).drop 4)
    else
      c :: removeNoise cs
termination_by l.length
decreasing_by
  all_goals simp [List.length_drop]
  all_goals omega

/-- Collapse every maximal run of characters satisfying `p` to the single
replacement character `rep` (the `replace(/CLASS+/g, rep)` pattern). -/
def collapseClass (p : Char → Bool) (rep : Char) : List Char → List Char
  | [] => []
  | [c] => if p c then [rep] else [c]
  | c1 :: c2 :: cs =>
    if p c1 && p c2 then collapseClass p rep (c2 :: cs)
    else (if p c1 then rep else c1) :: collapseClass p rep (c2 :: cs)

/-- The `replace(/\s+/g, ' ')` stage. -/
def collapseWs (l : List Char) : List Char :=
  collapseClass isJsSpace ' ' l

/-- Drop the maximal trailing run of characters satisfying `p`. -/
def dropTrailClass (p : Char → Bool) : List Char → List Char
  | [] => []
  | c :: cs =>
    match dropTrailClass p cs with
    | [] => if p c then [] else [c]
    | r => c :: r

/-- JavaScript `trim()`: drop leading and trailing whitespace. -/
def trimWs (l : List Char) : List Char :=
  dropTrailClass isJsSpace (l.dropWhile isJsSpace)

/-- Embedding of `normalizeName` from the ingestion pipeline: lower-case, NFD
decomposition, strip combining marks, remove the noise tokens, keep only
`[a-z0-9\s]`, collapse whitespace runs to single spaces, trim.  `lower` and
`nfd` are the runtime's toLowerCase / NFD, passed in as parameters. -/
def normalizeName (lower : Char → Char) (nfd : Char → List Char)
    (s : List Char) : List Char :=
  trimWs (collapseWs
    (((removeNoise
        (((s.map lower).flatMap nfd).filter (fun c => !isCombiningMark c)))).filter
      isKeepChar))

/-- ASCII model of the runtime's `toLowerCase`: maps `A`–`Z` to `a`–`z` and
is the identity elsewhere.  It agrees with the runtime on all ASCII input. -/
def asciiLower (c : Char) : Char :=
  if 0x41 ≤ c.toNat && c.toNat ≤ 0x5a then Char.ofNat (c.toNat + 32) else c

/-- ASCII model of the runtime's NFD: the identity decomposition, which
agrees with Unicode NFD on every ASCII code point. -/
def asciiNFD (c : Char) : List Char :=
  [c]

/-- Textbook Levenshtein distance, the `levenshtein` helper the city matcher
relies on (unit costs for insert, delete, substitute). -/
def levDist : List Char → List Char → Nat
  | [], t => t.length
  | s, [] => s.length
  | a :: s, b :: t =>
    if a = b then levDist s t
    else 1 + min (levDist (a :: s) t) (min (levDist s (b :: t)) (levDist s t))
termination_by s t => (s.length, t.length)

/-- A row of the canonical city table as consumed by `matchCity` (only the
fields the matcher reads; `name_fr` is taken as always populated here). -/
structure CityRow where
  id : Nat
  name : List Char
  name_fr : List Char
deriving DecidableEq, Repr

/-- Embedding of `matchCity`: falsy input (null or empty) returns null;
otherwise an exact normalized match against `name` / `name_fr` is tried via
`cities.find`, and failing that the first city in table order whose
normalized `name` is within Levenshtein distance 2. -/
def matchCity (lower : Char → Char) (nfd : Char → List Char)
    (cities : List CityRow) (rawCity : Option (List Char)) : Option Nat :=
  match rawCity with
  | none => none
  | some raw =>
    if raw = [] then none
    else
      let normalized := normalizeName lower nfd raw
      match cities.find? (fun c =>
          decide (normalizeName lower nfd c.name = normalized ∨
            normalizeName lower nfd c.name_fr = normalized)) with
      | some c => some c.id
      | none =>
        match cities.find? (fun c =>
            decide (levDist (normalizeName lower nfd c.name) normalized ≤ 2)) with
        | some c => some c.id
        | none => none

-- ============================================================================
-- Deduplication resolver and confidence scorer (ingestion pipeline)
-- ============================================================================

/-- The fields of a normalized candidate that the resolver and the similarity
computation read.  `cityId` / `venueId` are the nullable match results of the
normalization stage. -/
structure NormalizedCandidate where
  normalizedName : List Char
  startDate : List Char
  cityId : Option Nat
  venueId : Option Nat
deriving DecidableEq, Repr

/-- The fields of a canonical event that `calculateSimilarity` and the
date-location pass read.  `cityId` is non-nullable in the canonical type;
`venueId` is nullable. -/
structure EventRec where
  name : List Char
  startDate : List Char
  cityId : Nat
  venueId : Option Nat
deriving DecidableEq, Repr

/-- JavaScript truthiness of a nullable numeric id: `!x` holds for null
(undefined) and for the number 0. -/
def jsFalsyId (v : Option Nat) : Bool :=
  match v with
  | none => true
  | some n => n == 0

/-- Embedding of `calculateSimilarity`.  `jw` is the external Jaro–Winkler
scorer and `dBetween` the external signed day-difference helper; both are
runtime parameters. -/
def calculateSimilarity (jw : List Char → List Char → ℚ)
    (dBetween : List Char → List Char → ℤ)
    (lower : Char → Char) (nfd : Char → List Char)
    (candidate : NormalizedCandidate) (event : EventRec) : ℚ :=
  let nameScore : ℚ := jw candidate.normalizedName (normalizeName lower nfd event.name)
  let dateScore : ℚ :=
    if candidate.startDate = event.startDate then 1
    else if (dBetween candidate.startDate event.startDate).natAbs ≤ 1 then 8/10
    else if (dBetween candidate.startDate event.startDate).natAbs ≤ 7 then 5/10
    else 0
  let locationScore : ℚ := if candidate.cityId = some event.cityId then 1 else 0
  let venueScore : ℚ :=
    if jsFalsyId candidate.venueId || jsFalsyId event.venueId then 5/10
    else if candidate.venueId = event.venueId then 1
    else 0
  (40/100) * nameScore + (30/100) * dateScore +
    (20/100) * locationScore + (10/100) * venueScore

/-- A fingerprint-table hit, carrying the matched event id. -/
structure MatchRec where
  eventId : Nat
deriving DecidableEq, Repr

/-- The read-only store view the resolver queries: the `exact` fingerprint
lookup, the `fuzzy_name` and `date_location` candidate lists (in store
order), and the event loader. -/
structure DedupEnv where
  exactMatch : Option MatchRec
  fuzzyMatches : List MatchRec
  dateLocationMatches : List MatchRec
  getEvent : Nat → EventRec

inductive DedupAction where
  | create
  | merge
  | review
deriving DecidableEq, Repr

inductive MatchKind where
  | exact
  | fuzzy_name
  | date_location
  | none
deriving DecidableEq, Repr

structure DeduplicationResult where
  action : DedupAction
  existingEventId : Option Nat
  confidence : ℚ
  matchKind : MatchKind
deriving DecidableEq, Repr

/-- The step-2 loop of `deduplicateCandidate`: walk the `fuzzy_name` hits in
order and return the first whose weighted similarity reaches 0.85, together
with that similarity. -/
def fuzzyScan (jw : List Char → List Char → ℚ) (dBetween : List Char → List Char → ℤ)
    (lower : Char → Char) (nfd : Char → List Char)
    (candidate : NormalizedCandidate) (getEvent : Nat → EventRec) :
    List MatchRec → Option (Nat × ℚ)
  | [] => Option.none
  | m :: ms =>
    let similarity := calculateSimilarity jw dBetween lower nfd candidate (getEvent m.eventId)
    if 85/100 ≤ similarity then some (m.eventId, similarity)
    else fuzzyScan jw dBetween lower nfd candidate getEvent ms

/-- The step-3 loop of `deduplicateCandidate`: walk the `date_location` hits
in order and return the first whose Jaro–Winkler name similarity reaches
0.70, together with that similarity. -/
def dateLocScan (jw : List Char → List Char → ℚ)
    (lower : Char → Char) (nfd : Char → List Char)
    (candidate : NormalizedCandidate) (getEvent : Nat → EventRec) :
    List MatchRec → Option (Nat × ℚ)
  | [] => Option.none
  | m :: ms =>
    let nameSimilarity :=
      jw candidate.normalizedName (normalizeName lower nfd (getEvent m.eventId).name)
    if 70/100 ≤ nameSimilarity then some (m.eventId, nameSimilarity)
    else dateLocScan jw lower nfd candidate getEvent ms

/-- Embedding of `deduplicateCandidate`: ordered first-match-wins over the
exact, fuzzy-name and date-location fingerprint passes, else create. -/
def deduplicateCandidate (jw : List Char → List Char → ℚ)
    (dBetween : List Char → List Char → ℤ)
    (lower : Char → Char) (nfd : Char → List Char)
    (env : DedupEnv) (candidate : NormalizedCandidate) : DeduplicationResult :=
  match env.exactMatch with
  | some m => ⟨.merge, some m.eventId, 95/100, .exact⟩
  | Option.none =>
    match fuzzyScan jw dBetween lower nfd candidate env.getEvent env.fuzzyMatches with
    | some (i, s) => ⟨.merge, some i, s, .fuzzy_name⟩
    | Option.none =>
      match dateLocScan jw lower nfd candidate env.getEvent env.dateLocationMatches with
      | some (i, s) => ⟨.review, some i, s, .date_location⟩
      | Option.none => ⟨.create, Option.none, 1, .none⟩

/-- The source record behind a provenance linkage (only the field the scorer
reads). -/
structure SourceRec where
  reliabilityScore : ℚ
deriving DecidableEq, Repr

/-- The raw-payload fields the agreement computation projects out of
`rawData`: `start_date`, `date`, `venue.name` (flattened to `venue_name`),
`location`. -/
structure RawPayload where
  start_date : Option (List Char)
  date : Option (List Char)
  venue_name : Option (List Char)
  location : Option (List Char)
deriving DecidableEq, Repr

/-- A provenance linkage row as read by the confidence scorer. -/
structure EventSourceRec where
  sourceId : Nat
  source : SourceRec
  rawData : Option RawPayload
deriving DecidableEq, Repr

/-- JavaScript `a || b` on nullable strings: the left value unless it is
null/undefined or the empty (falsy) string. -/
def jsOrOpt (a b : Option (List Char)) : Option (List Char) :=
  match a with
  | some s => if s = [] then b else some s
  | Option.none => b

/-- The event attributes `calculateConfidenceScore` reads through dynamic
`event[f] != null` checks; every one is modelled nullable. -/
structure ScoredEvent where
  name : Option (List Char)
  startDate : Option (List Char)
  cityId : Option Nat
  status : Option (List Char)
  endDate : Option (List Char)
  venueId : Option Nat
  description : Option (List Char)
  officialWebsite : Option (List Char)
  lastVerifiedAt : Option (List Char)
deriving DecidableEq, Repr

/-- JavaScript `Math.max(...xs)` over a list known to be non-empty at the
call site (the empty case is guarded by `sources.length > 0` in the code). -/
def jsMaxList : List ℚ → ℚ
  | [] => 0
  | x :: xs => xs.foldl max x

/-- Embedding of `calculateSourceAgreement`.  `normDate` is the external
`normalizeDate` helper.  The `event` argument is unused, as in the source. -/
def calculateSourceAgreement (lower : Char → Char) (nfd : Char → List Char)
    (normDate : List Char → List Char)
    (event : ScoredEvent) (sources : List EventSourceRec) : ℚ :=
  if sources.length ≤ 1 then 5/10
  else
    let dates := ((sources.map (fun s =>
        jsOrOpt (s.rawData.bind RawPayload.start_date)
          (s.rawData.bind RawPayload.date))).filterMap id).filter (fun s => !s.isEmpty)
    let venues := ((sources.map (fun s =>
        jsOrOpt (s.rawData.bind RawPayload.venue_name)
          (s.rawData.bind RawPayload.location))).filterMap id).filter (fun s => !s.isEmpty)
    let dateComparisons : Nat := if 1 < dates.length then 1 else 0
    let dateAgreements : Nat :=
      if 1 < dates.length then
        (if (dates.map normDate).dedup.length = 1 then 1 else 0)
      else 0
    let venueComparisons : Nat := if 1 < venues.length then 1 else 0
    let venueAgreements : Nat :=
      if 1 < venues.length then
        (let normalizedVenues := venues.map (normalizeName lower nfd)
         if normalizedVenues.all (fun v => v = normalizedVenues.headI) then 1 else 0)
      else 0
    let agreements := dateAgreements + venueAgreements
    let comparisons := dateComparisons + venueComparisons
    if 0 < comparisons then (agreements : ℚ) / (comparisons : ℚ) else 5/10

/-- Embedding of `calculateConfidenceScore`.  `daysBetweenNow` models
`daysBetween(event.lastVerifiedAt, new Date())` and `hist` models the
`getSourceHistoricalAccuracy` lookup (null-propagating through
`sources[0]?.sourceId`). -/
def calculateConfidenceScore (lower : Char → Char) (nfd : Char → List Char)
    (normDate : List Char → List Char)
    (daysBetweenNow : List Char → ℚ) (hist : Option Nat → Option ℚ)
    (event : ScoredEvent) (sources : List EventSourceRec) : ℚ :=
  let sourceReliability : ℚ :=
    if 0 < sources.length then
      jsMaxList (sources.map (fun s => s.source.reliabilityScore))
    else 3/10
  let presentRequired : Nat :=
    [event.name.isSome, (event.startDate).isSome, (event.cityId).isSome,
      (event.status).isSome].countP id
  let presentOptional : Nat :=
    [event.endDate.isSome, (event.venueId).isSome, (event.description).isSome,
      (event.officialWebsite).isSome].countP id
  let completeness : ℚ :=
    ((presentRequired : ℚ) / 4) * (7/10) + ((presentOptional : ℚ) / 4) * (3/10)
  let sourceAgreement := calculateSourceAgreement lower nfd normDate event sources
  let daysSinceVerification : ℚ :=
    match event.lastVerifiedAt with
    | some d => daysBetweenNow d
    | Option.none => 365
  let recency : ℚ := max 0 (1 - daysSinceVerification / 90)
  let historicalAccuracy : ℚ :=
    (hist ((sources.head?).map EventSourceRec.sourceId)).getD (5/10)
  (35/100) * sourceReliability + (25/100) * completeness +
    (20/100) * sourceAgreement + (10/100) * recency +
    (10/100) * historicalAccuracy

-- ============================================================================
-- Search index synchronizer (Typesense service)
-- ============================================================================

/-- A `{ name, slug }` pair from the genre / artist joins. -/
structure NameSlug where
  name : List Char
  slug : List Char
deriving DecidableEq, Repr

/-- The joined event row selected by `fullReindex` / `indexEvent` (events
inner-joined with cities and regions, left-joined with venues and
organizers).  The geo columns are absent from the select list, so they are
modelled as the nullable fields they arrive as. -/
structure EventRow where
  id : Nat
  name : List Char
  slug : List Char
  event_type : List Char
  description : Option (List Char)
  start_date : List Char
  end_date : Option (List Char)
  status : List Char
  confidence_score : ℚ
  is_verified : Bool
  is_pinned : Bool
  cultural_significance : Int
  official_website : Option (List Char)
  updated_at : List Char
  city_id : Nat
  city_name : List Char
  city_slug : List Char
  region_id : Nat
  region_name : List Char
  region_slug : List Char
  venue_name : Option (List Char)
  venue_slug : Option (List Char)
  organizer_name : Option (List Char)
  geo_lat : Option ℚ
  geo_lng : Option ℚ
deriving DecidableEq, Repr

/-- The Typesense document produced by `toSearchDocument`.  The document id
is the event id (the code stringifies it with `String(row.id)`, an injective
rendering). -/
structure SearchDocument where
  id : Nat
  name : List Char
  slug : List Char
  event_type : List Char
  description : Option (List Char)
  start_date : Int
  end_date : Option Int
  year : Int
  month : Int
  city_id : Nat
  city_name : List Char
  city_slug : List Char
  region_id : Nat
  region_name : List Char
  region_slug : List Char
  venue_name : Option (List Char)
  venue_slug : Option (List Char)
  geo_location : Option (ℚ × ℚ)
  genres : List (List Char)
  genre_slugs : List (List Char)
  artists : List (List Char)
  artist_slugs : List (List Char)
  organizer_name : Option (List Char)
  official_website : Option (List Char)
  status : List Char
  confidence_score : ℚ
  is_verified : Bool
  is_pinned : Bool
  cultural_significance : Int
  has_tickets : Bool
  updated_at : Int
deriving DecidableEq, Repr

/-- The date operations `toSearchDocument` delegates to the runtime `Date`:
epoch seconds (`Math.floor(getTime() / 1000)`), `getFullYear`, and
`getMonth() + 1`. -/
structure DateOps where
  epochSeconds : List Char → Int
  year : List Char → Int
  month1 : List Char → Int

/-- JavaScript truthiness of a nullable string (`if (row.description) ...`):
present and non-empty. -/
def jsTruthyStr (v : Option (List Char)) : Option (List Char) :=
  match v with
  | some s => if s = [] then Option.none else some s
  | Option.none => Option.none

/-- Embedding of `toSearchDocument`. -/
def toSearchDocument (dops : DateOps) (row : EventRow)
    (genres artists : List NameSlug) (hasTickets : Bool) : SearchDocument :=
  { id := row.id
    name := row.name
    slug := row.slug
    event_type := row.event_type
    description := jsTruthyStr row.description
    start_date := dops.epochSeconds row.start_date
    end_date := (jsTruthyStr row.end_date).map dops.epochSeconds
    year := dops.year row.start_date
    month := dops.month1 row.start_date
    city_id := row.city_id
    city_name := row.city_name
    city_slug := row.city_slug
    region_id := row.region_id
    region_name := row.region_name
    region_slug := row.region_slug
    venue_name := jsTruthyStr row.venue_name
    venue_slug := jsTruthyStr row.venue_slug
    geo_location :=
      match row.geo_lat, row.geo_lng with
      | some la, some ln => some (la, ln)
      | _, _ => Option.none
    genres := genres.map NameSlug.name
    genre_slugs := genres.map NameSlug.slug
    artists := artists.map NameSlug.name
    artist_slugs := artists.map NameSlug.slug
    organizer_name := jsTruthyStr row.organizer_name
    official_website := jsTruthyStr row.official_website
    status := row.status
    confidence_score := row.confidence_score
    is_verified := row.is_verified
    is_pinned := row.is_pinned
    cultural_significance := row.cultural_significance
    has_tickets := hasTickets
    updated_at := dops.epochSeconds row.updated_at }

/-- The authoritative-store tables the synchronizer queries: joined event
rows, the genre and artist link tables keyed by event id, and the grouped
ticket-url counts. -/
structure Db where
  events : List EventRow
  eventGenres : List (Nat × NameSlug)
  eventArtists : List (Nat × NameSlug)
  ticketCounts : List (Nat × Nat)
deriving Repr

/-- Genres joined for one event (`event_genres` filtered on the event id). -/
def genresFor (db : Db) (eventId : Nat) : List NameSlug :=
  (db.eventGenres.filter (fun g => g.1 == eventId)).map Prod.snd

/-- Artists joined for one event. -/
def artistsFor (db : Db) (eventId : Nat) : List NameSlug :=
  (db.eventArtists.filter (fun a => a.1 == eventId)).map Prod.snd

/-- Whether an event has at least one ticket url (`Number(count) > 0`). -/
def hasTicketsFor (db : Db) (eventId : Nat) : Bool :=
  db.ticketCounts.any (fun t => t.1 == eventId && 0 < t.2)

/-- The `status in ('announced', 'confirmed')` filter of the indexing
queries. -/
def indexableStatus (s : List Char) : Bool :=
  s == "announced".toList || s == "confirmed".toList

/-- The batch-import loop of `fullReindex`.  `imp` is the Typesense
batch-import call: `none` models a thrown batch-level error (the whole batch
is counted as errors), `some results` the per-document success flags.
Returns (indexed, errors, successfully imported documents). -/
def importBatches (imp : List SearchDocument → Option (List Bool)) :
    (docs : List SearchDocument) → Nat × Nat × List SearchDocument
  | docs =>
    if h : docs = [] then (0, 0, [])
    else
      let batch := docs.take 100
      let rest := docs.drop 100
      let (i, e, c) := importBatches imp rest
      match imp batch with
      | Option.none => (i, batch.length + e, c)
      | some results =>
        let failed := results.countP (fun r => !r)
        (batch.length - failed + i, failed + e,
          ((batch.zip results).filterMap (fun dr => if dr.2 then some dr.1 else Option.none)) ++ c)
termination_by docs => docs.length
decreasing_by
  show (List.drop 100 docs).length < docs.length
  have hp : 0 < docs.length := List.length_pos.mpr h
  simp only [List.length_drop]
  omega

/-- The search-engine collection state: `none` when the `events` collection
does not exist. -/
structure SearchState where
  collection : Option (List SearchDocument)
deriving Repr

/-- Embedding of `fullReindex`: drop and recreate the collection (the prior
state is discarded), select the joined rows whose status is announced or
confirmed, transform them, import in batches of 100, and return the new
state together with (indexed, errors). -/
def fullReindex (dops : DateOps) (imp : List SearchDocument → Option (List Bool))
    (prior : SearchState) (db : Db) : SearchState × Nat × Nat :=
  let events := db.events.filter (fun e => indexableStatus e.status)
  let documents := events.map (fun e =>
    toSearchDocument dops e (genresFor db e.id) (artistsFor db e.id) (hasTicketsFor db e.id))
  let (indexed, errors, coll) := importBatches imp documents
  (⟨some coll⟩, indexed, errors)

/-- Per-document delete against the collection: a missing document (or a
missing collection) raises an error, which the call sites wrap in
try/catch. -/
def deleteDocRaw (eventId : Nat) (st : SearchState) :
    Except Unit SearchState :=
  match st.collection with
  | Option.none => .error ()
  | some coll =>
    if coll.any (fun d => d.id == eventId) then
      .ok ⟨some (coll.filter (fun d => !(d.id == eventId)))⟩
    else .error ()

/-- The `try { ... delete() } catch { }` pattern: a failed delete leaves the
state unchanged and the error is swallowed. -/
def tryDeleteDoc (eventId : Nat) (st : SearchState) : SearchState :=
  match deleteDocRaw eventId st with
  | .ok st' => st'
  | .error _ => st

/-- Typesense upsert of a single document: replace the document with the same
id, or append when absent. -/
def upsertDoc (d : SearchDocument) (coll : List SearchDocument) :
    List SearchDocument :=
  if coll.any (fun x => x.id == d.id) then
    coll.map (fun x => if x.id == d.id then d else x)
  else coll ++ [d]

/-- Embedding of `indexEvent`: load the joined row by id; if it is absent or
its status is not indexable, delete the document (missing-document errors
swallowed); otherwise transform and upsert the single document. -/
def indexEvent (dops : DateOps) (db : Db) (eventId : Nat)
    (st : SearchState) : SearchState :=
  match db.events.find? (fun e => e.id == eventId) with
  | Option.none => tryDeleteDoc eventId st
  | some event =>
    if !indexableStatus event.status then tryDeleteDoc eventId st
    else
      let document := toSearchDocument dops event (genresFor db eventId)
        (artistsFor db eventId) (hasTicketsFor db eventId)
      -- upsert of the single document; on a missing collection the real call
      -- raises before writing anything, so the absent state is left as is
      ⟨st.collection.map (upsertDoc document)⟩

/-- Embedding of `removeFromIndex`: delete by id with the error swallowed. -/
def removeFromIndex (eventId : Nat) (st : SearchState) : SearchState :=
  tryDeleteDoc eventId st

-- ============================================================================
-- Event-type unions (canonical types, taxonomy module) and the sheets client
-- ============================================================================

/-- The `EventType` union of the canonical type definitions:
festival | concert | showcase | ritual | conference. -/
inductive EventTypeCanonical where
  | festival
  | concert
  | showcase
  | ritual
  | conference
deriving DecidableEq, Repr

/-- String value of a canonical event type. -/
def EventTypeCanonical.value : EventTypeCanonical → List Char
  | .festival => "festival".toList
  | .concert => "concert".toList
  | .showcase => "showcase".toList
  | .ritual => "ritual".toList
  | .conference => "conference".toList

/-- The `EventType` enum of the taxonomy module (axis 1 of the constitutional
classification): FESTIVAL, CONCERT, MOUSSEM, LILA, SHOWCASE, GATHERING. -/
inductive TaxonomyEventType where
  | FESTIVAL
  | CONCERT
  | MOUSSEM
  | LILA
  | SHOWCASE
  | GATHERING
deriving DecidableEq, Repr

/-- String value carried by each taxonomy enum member. -/
def TaxonomyEventType.value : TaxonomyEventType → List Char
  | .FESTIVAL => "festival".toList
  | .CONCERT => "concert".toList
  | .MOUSSEM => "moussem".toList
  | .LILA => "lila".toList
  | .SHOWCASE => "showcase".toList
  | .GATHERING => "gathering".toList

/-- The fixed five-element event-type set named by the specification. -/
def eventTypeSet5 : List (List Char) :=
  ["festival".toList, "concert".toList, "showcase".toList,
    "ritual".toList, "conference".toList]

/-- The six string values of the taxonomy enum. -/
def taxonomyEventTypeSet : List (List Char) :=
  ["festival".toList, "concert".toList, "moussem".toList,
    "lila".toList, "showcase".toList, "gathering".toList]

/-- The runtime value of the object-literal lookup in `categoryToEventType`:
either a string (an own-property hit, or the `|| 'festival'` default fired on
an undefined lookup), or a truthy member inherited from Object.prototype that
the bracket lookup finds on the prototype chain and that the `||` fallback
therefore does not replace. -/
inductive CategoryLookup where
  | value (s : List Char)
  | inherited (key : List Char)
deriving DecidableEq, Repr

/-- The string-keyed properties every object literal inherits from
Object.prototype.  A bracket lookup with one of these keys returns the
inherited member (a function, or Object.prototype itself for `__proto__`),
which is truthy. -/
def objectProtoKeys : List (List Char) :=
  ["constructor".toList, "hasOwnProperty".toList, "isPrototypeOf".toList,
    "propertyIsEnumerable".toList, "toLocaleString".toList, "toString".toList,
    "valueOf".toList, "__defineGetter__".toList, "__defineSetter__".toList,
    "__lookupGetter__".toList, "__lookupSetter__".toList, "__proto__".toList]

/-- The ten own key-value entries of the object literal in
`categoryToEventType`, in source order. -/
def ownCategoryMap : List (List Char × List Char) :=
  [("music".toList, "festival".toList),
   ("art".toList, "festival".toList),
   ("film".toList, "festival".toList),
   ("heritage".toList, "ritual".toList),
   ("food".toList, "festival".toList),
   ("spiritual".toList, "ritual".toList),
   ("dance".toList, "festival".toList),
   ("theatre".toList, "showcase".toList),
   ("literature".toList, "conference".toList),
   ("craft".toList, "festival".toList)]

/-- Embedding of `categoryToEventType` from the sheets client:
`map[category?.toLowerCase()] || "festival"` on an object literal.  The
bracket lookup finds an own property first; failing that, a key inherited
from Object.prototype leaks the inherited truthy member (so the `||`
fallback does not apply); every other key is undefined and falls back to
`festival`.  `lower` is the runtime `toLowerCase` applied to the key. -/
def categoryToEventType (lower : Char → Char) (category : List Char) :
    CategoryLookup :=
  let k := category.map lower
  match ownCategoryMap.find? (fun kv => kv.1 == k) with
  | some kv => .value kv.2
  | Option.none =>
    if k ∈ objectProtoKeys then .inherited k
    else .value "festival".toList

/-- JavaScript `a || b` where the fallback is a plain string. -/
def jsOrStr (a : Option (List Char)) (b : List Char) : List Char :=
  match a with
  | some s => if s = [] then b else s
  | Option.none => b

/-- Embedding of `slugify` from the sheets client: lower-case, NFD, strip
combining marks, collapse every run outside `[a-z0-9]` to a single `-`, and
strip leading/trailing dashes. -/
def slugify (lower : Char → Char) (nfd : Char → List Char) (s : List Char) :
    List Char :=
  let t := ((s.map lower).flatMap nfd).filter (fun c => !isCombiningMark c)
  let dashed := collapseClass (fun c => !(isLowerAlpha c || isDigitChar c)) '-' t
  dropTrailClass (fun c => c == '-') (dashed.dropWhile (fun c => c == '-'))

/-- JavaScript `String.prototype.split(',')`. -/
def splitComma : List Char → List (List Char)
  | [] => [[]]
  | c :: cs =>
    if c = ',' then [] :: splitComma cs
    else
      match splitComma cs with
      | [] => [[c]]
      | g :: gs => (c :: g) :: gs

/-- A row of the Supabase `festivals` table as the client receives it (every
column nullable; numeric columns arrive as raw text and are parsed with the
runtime `parseFloat`, passed in as a parameter). -/
structure FestivalRow where
  id : List Char
  title_en : Option (List Char)
  title_fr : Option (List Char)
  title_es : Option (List Char)
  title_ar : Option (List Char)
  category : Option (List Char)
  start_date : Option (List Char)
  end_date : Option (List Char)
  city : Option (List Char)
  region : Option (List Char)
  venue : Option (List Char)
  tags : Option (List Char)
  organizer : Option (List Char)
  website : Option (List Char)
  status : Option (List Char)
  description_en : Option (List Char)
  description_fr : Option (List Char)
  description_es : Option (List Char)
  description_ar : Option (List Char)
  image : Option (List Char)
  price_min : Option (List Char)
  price_max : Option (List Char)
  price_is_free : Option Bool
  lat : Option (List Char)
  lng : Option (List Char)
  email : Option (List Char)
  phone : Option (List Char)
  wheelchair_access : Option Bool
  sign_language : Option Bool
  audio_description : Option Bool
deriving DecidableEq, Repr

/-- The `SheetEvent` shape produced by the sheets client. -/
structure SheetEvent where
  id : List Char
  name : List Char
  slug : List Char
  event_type : CategoryLookup
  start_date : List Char
  end_date : Option (List Char)
  city : List Char
  city_slug : List Char
  region : List Char
  region_slug : List Char
  venue : Option (List Char)
  genres : List (List Char)
  artists : List (List Char)
  organizer : Option (List Char)
  official_website : Option (List Char)
  ticket_url : Option (List Char)
  status : List Char
  is_verified : Bool
  is_pinned : Bool
  cultural_significance : Int
  description : Option (List Char)
  image_url : Option (List Char)
  title_en : List Char
  title_fr : List Char
  title_es : List Char
  title_ar : List Char
  description_fr : Option (List Char)
  description_es : Option (List Char)
  description_ar : Option (List Char)
  price_min : ℚ
  price_max : ℚ
  price_isFree : Bool
  lat : ℚ
  lng : ℚ
  email : Option (List Char)
  phone : Option (List Char)
  wheelchairAccess : Bool
  signLanguage : Bool
  audioDescription : Bool
deriving DecidableEq, Repr

/-- Embedding of `rowToEvent`.  `parseF` models `parseFloat` (returning
`none` for NaN, so `parseFloat(x) || 0` becomes `getD 0`). -/
def rowToEvent (lower : Char → Char) (nfd : Char → List Char)
    (parseF : List Char → Option ℚ) (row : FestivalRow) : SheetEvent :=
  let title := jsOrStr row.title_en row.id
  let city := jsOrStr row.city []
  let region := jsOrStr row.region []
  { id := row.id
    name := title
    slug := slugify lower nfd title
    event_type := categoryToEventType lower (jsOrStr row.category "music".toList)
    start_date := jsOrStr row.start_date []
    end_date := jsTruthyStr row.end_date
    city := city
    city_slug := slugify lower nfd city
    region := region
    region_slug := slugify lower nfd region
    venue := jsTruthyStr row.venue
    genres :=
      match jsTruthyStr row.tags with
      | some tags => ((splitComma tags).map trimWs).filter (fun t => !t.isEmpty)
      | Option.none => []
    artists := []
    organizer := jsTruthyStr row.organizer
    official_website := jsTruthyStr row.website
    ticket_url := Option.none
    status := jsOrStr row.status "published".toList
    is_verified := true
    is_pinned := false
    cultural_significance := 5
    description := jsTruthyStr row.description_en
    image_url := jsTruthyStr row.image
    title_en := title
    title_fr := jsOrStr row.title_fr []
    title_es := jsOrStr row.title_es []
    title_ar := jsOrStr row.title_ar []
    description_fr := jsTruthyStr row.description_fr
    description_es := jsTruthyStr row.description_es
    description_ar := jsTruthyStr row.description_ar
    price_min := (row.price_min.bind parseF).getD 0
    price_max := (row.price_max.bind parseF).getD 0
    price_isFree := row.price_is_free.getD false
    lat := (row.lat.bind parseF).getD 0
    lng := (row.lng.bind parseF).getD 0
    email := jsTruthyStr row.email
    phone := jsTruthyStr row.phone
    wheelchairAccess := row.wheelchair_access.getD false
    signLanguage := row.sign_language.getD false
    audioDescription := row.audio_description.getD false }

/-- The module-level cache of the sheets client (`_cachedEvents`,
`_cacheTimestamp`). -/
structure FetchState where
  cachedEvents : Option (List SheetEvent)
  cacheTimestamp : Int
deriving Repr

/-- The 5-minute cache TTL, in milliseconds. -/
def CACHE_TTL : Int := 5 * 60 * 1000

/-- The try/catch body of `fetchEvents`: on a successful store query map the
rows and refresh the cache; on any error fall back to the cached list when
one exists, else the empty list.  No exception escapes. -/
def fetchEventsFetch (lower : Char → Char) (nfd : Char → List Char)
    (parseF : List Char → Option ℚ) (now : Int)
    (outcome : Except Unit (List FestivalRow)) (st : FetchState) :
    List SheetEvent × FetchState :=
  match outcome with
  | .ok rows =>
    let events := rows.map (rowToEvent lower nfd parseF)
    (events, ⟨some events, now⟩)
  | .error _ =>
    match st.cachedEvents with
    | some cached => (cached, st)
    | Option.none => ([], st)

/-- Embedding of `fetchEvents`: serve a non-null cache younger than the TTL,
otherwise run the query body.  `outcome` is the result of the underlying
Supabase query (already filtered to status = published and ordered by
start_date by the store). -/
def fetchEvents (lower : Char → Char) (nfd : Char → List Char)
    (parseF : List Char → Option ℚ) (now : Int)
    (outcome : Except Unit (List FestivalRow)) (st : FetchState) :
    List SheetEvent × FetchState :=
  match st.cachedEvents with
  | some cached =>
    if now - st.cacheTimestamp < CACHE_TTL then (cached, st)
    else fetchEventsFetch lower nfd parseF now outcome st
  | Option.none => fetchEventsFetch lower nfd parseF now outcome st

/-- Strict code-unit lexicographic order on strings, the semantics of the
JavaScript `<` / `>=` string comparison (and of `localeCompare` on the plain
ASCII date strings involved here). -/
def jsStrLt : List Char → List Char → Bool
  | [], [] => false
  | [], _ :: _ => true
  | _ :: _, [] => false
  | a :: s, b :: t =>
    if a.toNat < b.toNat then true
    else if b.toNat < a.toNat then false
    else jsStrLt s t

/-- Non-strict code-unit lexicographic order: `a <= b`. -/
def jsStrLe (a b : List Char) : Bool :=
  !jsStrLt b a

/-- Embedding of `getUpcomingEvents`: keep the events whose `start_date`
compares at least `today` (the current date rendered `YYYY-MM-DD`), sorted
ascending by `start_date`. -/
def getUpcomingEvents (today : List Char) (events : List SheetEvent) :
    List SheetEvent :=
  (events.filter (fun e => jsStrLe today e.start_date)).mergeSort
    (fun a b => jsStrLe a.start_date b.start_date)

-- ============================================================================
-- Normal-form invariant and concrete fixtures
-- ============================================================================

/-- Normal form produced by run-collapse: every character of the `p` class
has been rewritten to `rep`, and no two adjacent characters are both in the
class. -/
def Collapsed (p : Char → Bool) (rep : Char) (l : List Char) : Prop :=
  (∀ c ∈ l, p c = true → c = rep) ∧
  l.Chain' (fun a b => ¬(p a = true ∧ p b = true))

/-- City table used to exercise the fuzzy matcher on concrete inputs. -/
def cxCities : List CityRow :=
  [⟨1, "abb".toList, "abb".toList⟩, ⟨2, "axy".toList, "axy".toList⟩]

/-- Trivial date operations used when instantiating the synchronizer on
concrete fixtures. -/
def dops0 : DateOps :=
  ⟨fun _ => 0, fun _ => 0, fun _ => 0⟩

/-- Batch importer that reports every document as successfully upserted. -/
def imp0 : List SearchDocument → Option (List Bool) :=
  fun batch => some (batch.map (fun _ => true))

/-- A joined event row with an indexable status. -/
def sampleRowAnnounced : EventRow :=
  { id := 1
    name := "Festival Gnaoua".toList
    slug := "festival-gnaoua".toList
    event_type := "festival".toList
    description := Option.none
    start_date := "2025-06-26".toList
    end_date := Option.none
    status := "announced".toList
    confidence_score := 9/10
    is_verified := true
    is_pinned := true
    cultural_significance := 10
    official_website := Option.none
    updated_at := "2025-01-01".toList
    city_id := 3
    city_name := "Essaouira".toList
    city_slug := "essaouira".toList
    region_id := 4
    region_name := "Marrakech-Safi".toList
    region_slug := "marrakech-safi".toList
    venue_name := Option.none
    venue_slug := Option.none
    organizer_name := Option.none
    geo_lat := Option.none
    geo_lng := Option.none }

/-- A joined event row with a non-indexable status. -/
def sampleRowCancelled : EventRow :=
  { sampleRowAnnounced with id := 2, status := "cancelled".toList }

/-- Two-event store fixture: one indexable event, one cancelled. -/
def sampleDb : Db :=
  ⟨[sampleRowAnnounced, sampleRowCancelled], [], [], []⟩

/-- A Supabase row fixture with only the id populated. -/
def sampleFestivalRow : FestivalRow :=
  { id := "gnaoua-2025".toList
    title_en := Option.none
    title_fr := Option.none
    title_es := Option.none
    title_ar := Option.none
    category := Option.none
    start_date := some "2025-06-26".toList
    end_date := Option.none
    city := Option.none
    region := Option.none
    venue := Option.none
    tags := Option.none
    organizer := Option.none
    website := Option.none
    status := Option.none
    description_en := Option.none
    description_fr := Option.none
    description_es := Option.none
    description_ar := Option.none
    image := Option.none
    price_min := Option.none
    price_max := Option.none
    price_is_free := Option.none
    lat := Option.none
    lng := Option.none
    email := Option.none
    phone := Option.none
    wheelchair_access := Option.none
    sign_language := Option.none
    audio_description := Option.none }

-- ============================================================================
-- Theorems
-- ============================================================================

/-- C8 counterexample: the taxonomy module's EventType enum carries the value
`moussem`, which is not in the fixed set
{festival, concert, showcase, ritual, conference}. -/
theorem taxonomy_event_type_counterexample :
    TaxonomyEventType.MOUSSEM.value ∈ taxonomyEventTypeSet ∧
    TaxonomyEventType.MOUSSEM.value ∉ eventTypeSet5 := by
  decide

/-- C8 (amended): the canonical EventType union takes values only in
{festival, concert, showcase, ritual, conference}; `categoryToEventType`
maps every category string whose lower-cased form is not an inherited
Object.prototype property name to a string in that set (defaulting to
`festival`), while for the inherited property names (`constructor`,
`toString`, `valueOf`, `__proto__`, ...) the object-literal lookup leaks the
inherited truthy member, which is not a string of the set; and the taxonomy
module's EventType enum ranges over the six-element set
{festival, concert, moussem, lila, showcase, gathering}. -/
theorem event_type_sets_spec :
    (∀ t : EventTypeCanonical, t.value ∈ eventTypeSet5) ∧
    (∀ t : TaxonomyEventType, t.value ∈ taxonomyEventTypeSet) ∧
    (∀ (lower : Char → Char) (category : List Char),
      category.map lower ∉ objectProtoKeys →
      ∃ s, categoryToEventType lower category = .value s ∧ s ∈ eventTypeSet5) ∧
    (∀ (lower : Char → Char) (category : List Char),
      category.map lower ∈ objectProtoKeys →
      categoryToEventType lower category = .inherited (category.map lower)) ∧
    (∀ k s, CategoryLookup.inherited k ≠ CategoryLookup.value s) := by
  refine ⟨?_, ?_, ?_, ?_, ?_⟩
  · intro t
    cases t <;> decide
  · intro t
    cases t <;> decide
  · intro lower category hnp
    have hall : ∀ kv ∈ ownCategoryMap, kv.2 ∈ eventTypeSet5 := by decide
    cases hf : ownCategoryMap.find? (fun kv => kv.1 == category.map lower) with
    | some kv =>
      exact ⟨kv.2, by simp only [categoryToEventType, hf],
        hall kv (List.mem_of_find?_eq_some hf)⟩
    | none =>
      refine ⟨"festival".toList, ?_, by decide⟩
      simp only [categoryToEventType, hf]
      rw [if_neg hnp]
  · intro lower category h
    have hdisj : ∀ x ∈ objectProtoKeys,
        ownCategoryMap.find? (fun kv => kv.1 == x) = Option.none := by decide
    simp only [categoryToEventType, hdisj (category.map lower) h]
    rw [if_pos h]
  · intro k v h
    cases h

/-- C8 witness: the category `music` maps to a set member, while the
category `constructor` hits the inherited Object.prototype member and
escapes the set. -/
theorem event_type_sets_spec_witness :
    (∃ s, categoryToEventType asciiLower "music".toList = .value s ∧
      s ∈ eventTypeSet5) ∧
    categoryToEventType asciiLower "constructor".toList =
      .inherited ("constructor".toList.map asciiLower) :=
  ⟨event_type_sets_spec.2.2.1 asciiLower "music".toList (by decide),
   event_type_sets_spec.2.2.2.1 asciiLower "constructor".toList (by decide)⟩

/-- The step-2 loop returns exactly the first fuzzy hit whose weighted
similarity reaches 0.85, paired with that similarity. -/
theorem fuzzyScan_eq_find (jw : List Char → List Char → ℚ)
    (dBetween : List Char → List Char → ℤ)
    (lower : Char → Char) (nfd : Char → List Char)
    (candidate : NormalizedCandidate) (getEvent : Nat → EventRec)
    (l : List MatchRec) :
    fuzzyScan jw dBetween lower nfd candidate getEvent l =
      (l.find? (fun m =>
        decide (85/100 ≤ calculateSimilarity jw dBetween lower nfd candidate
          (getEvent m.eventId)))).map
        (fun m => (m.eventId,
          calculateSimilarity jw dBetween lower nfd candidate (getEvent m.eventId))) := by
  induction l with
  | nil => rfl
  | cons m ms ih =>
    by_cases hm : 85/100 ≤ calculateSimilarity jw dBetween lower nfd candidate
      (getEvent m.eventId)
    · simp [fuzzyScan, List.find?, hm]
    · simp [fuzzyScan, List.find?, hm, ih]

/-- The step-3 loop returns exactly the first date-location hit whose
Jaro-Winkler name similarity reaches 0.70, paired with that similarity. -/
theorem dateLocScan_eq_find (jw : List Char → List Char → ℚ)
    (lower : Char → Char) (nfd : Char → List Char)
    (candidate : NormalizedCandidate) (getEvent : Nat → EventRec)
    (l : List MatchRec) :
    dateLocScan jw lower nfd candidate getEvent l =
      (l.find? (fun m =>
        decide (70/100 ≤ jw candidate.normalizedName
          (normalizeName lower nfd (getEvent m.eventId).name)))).map
        (fun m => (m.eventId,
          jw candidate.normalizedName (normalizeName lower nfd (getEvent m.eventId).name))) := by
  induction l with
  | nil => rfl
  | cons m ms ih =>
    by_cases hm : 70/100 ≤ jw candidate.normalizedName
      (normalizeName lower nfd (getEvent m.eventId).name)
    · simp [dateLocScan, List.find?, hm]
    · simp [dateLocScan, List.find?, hm, ih]

/-- C2: the deduplication resolver is an ordered first-match-wins decision
procedure: an exact fingerprint hit yields merge at 0.95 / exact; otherwise
the first fuzzy_name hit with weighted similarity at least 0.85 yields merge
at that similarity / fuzzy_name; otherwise the first date_location hit with
Jaro-Winkler name similarity at least 0.70 yields review at that similarity /
date_location; otherwise create at 1.0 / none. -/
theorem deduplicateCandidate_spec (jw : List Char → List Char → ℚ)
    (dBetween : List Char → List Char → ℤ)
    (lower : Char → Char) (nfd : Char → List Char)
    (env : DedupEnv) (candidate : NormalizedCandidate) :
    (∀ m, env.exactMatch = some m →
      deduplicateCandidate jw dBetween lower nfd env candidate =
        ⟨.merge, some m.eventId, 95/100, .exact⟩) ∧
    (∀ m, env.exactMatch = Option.none →
      env.fuzzyMatches.find? (fun m =>
          decide (85/100 ≤ calculateSimilarity jw dBetween lower nfd candidate
            (env.getEvent m.eventId))) = some m →
      deduplicateCandidate jw dBetween lower nfd env candidate =
        ⟨.merge, some m.eventId,
          calculateSimilarity jw dBetween lower nfd candidate (env.getEvent m.eventId),
          .fuzzy_name⟩) ∧
    (∀ m, env.exactMatch = Option.none →
      env.fuzzyMatches.find? (fun m =>
          decide (85/100 ≤ calculateSimilarity jw dBetween lower nfd candidate
            (env.getEvent m.eventId))) = Option.none →
      env.dateLocationMatches.find? (fun m =>
          decide (70/100 ≤ jw candidate.normalizedName
            (normalizeName lower nfd (env.getEvent m.eventId).name))) = some m →
      deduplicateCandidate jw dBetween lower nfd env candidate =
        ⟨.review, some m.eventId,
          jw candidate.normalizedName (normalizeName lower nfd (env.getEvent m.eventId).name),
          .date_location⟩) ∧
    (env.exactMatch = Option.none →
      env.fuzzyMatches.find? (fun m =>
          decide (85/100 ≤ calculateSimilarity jw dBetween lower nfd candidate
            (env.getEvent m.eventId))) = Option.none →
      env.dateLocationMatches.find? (fun m =>
          decide (70/100 ≤ jw candidate.normalizedName
            (normalizeName lower nfd (env.getEvent m.eventId).name))) = Option.none →
      deduplicateCandidate jw dBetween lower nfd env candidate =
        ⟨.create, Option.none, 1, .none⟩) := by
  refine ⟨?_, ?_, ?_, ?_⟩
  · intro m hm
    simp [deduplicateCandidate, hm]
  · intro m hex hf
    simp [deduplicateCandidate, hex, fuzzyScan_eq_find, hf]
  · intro m hex hf hd
    simp [deduplicateCandidate, hex, fuzzyScan_eq_find, hf, dateLocScan_eq_find, hd]
  · intro hex hf hd
    simp [deduplicateCandidate, hex, fuzzyScan_eq_find, hf, dateLocScan_eq_find, hd]

/-- C2 witness: the resolver applied to a store view with an exact hit on
event 7 returns merge at 0.95 / exact. -/
theorem deduplicateCandidate_spec_witness :
    deduplicateCandidate (fun _ _ => 9/10) (fun _ _ => 0) asciiLower asciiNFD
      (DedupEnv.mk (some ⟨7⟩) [] []
        (fun _ => ⟨"gnaoua".toList, "2025-06-26".toList, 3, Option.none⟩))
      ⟨"gnaoua".toList, "2025-06-26".toList, some 3, Option.none⟩ =
      ⟨.merge, some 7, 95/100, .exact⟩ :=
  (deduplicateCandidate_spec (fun _ _ => 9/10) (fun _ _ => 0) asciiLower asciiNFD
    (DedupEnv.mk (some ⟨7⟩) [] []
      (fun _ => ⟨"gnaoua".toList, "2025-06-26".toList, 3, Option.none⟩))
    ⟨"gnaoua".toList, "2025-06-26".toList, some 3, Option.none⟩).1 ⟨7⟩ rfl

/-- C3 counterexample: with both venue ids present and equal to 0, the code
takes the falsy branch and scores the venue 0.5 instead of the claimed 1.0,
so the similarity is 0.95 while the claimed formula gives 1.0 (name, date and
location scores all being 1 here). -/
theorem calculateSimilarity_venue_counterexample :
    calculateSimilarity (fun _ _ => 1) (fun _ _ => 0) asciiLower asciiNFD
      ⟨"gnaoua".toList, "2025-06-26".toList, some 5, some 0⟩
      ⟨"gnaoua".toList, "2025-06-26".toList, 5, some 0⟩ = 19/20 ∧
    (40/100 : ℚ) * 1 + (30/100) * 1 + (20/100) * 1 + (10/100) * 1 = 1 ∧
    (19/20 : ℚ) ≠ 1 := by
  refine ⟨?_, by norm_num, by norm_num⟩
  simp only [calculateSimilarity, jsFalsyId]
  norm_num

/-- C3 (amended): the weighted similarity equals
0.40·name + 0.30·date + 0.20·location + 0.10·venue with the claimed name,
date and location scores, where the venue score is 0.5 when either venue id
is unknown or 0 (the falsy values), 1.0 when both are present, non-zero and
equal, and 0 otherwise; when the Jaro-Winkler score lies in [0, 1] the
result lies in [0, 1]. -/
theorem calculateSimilarity_formula (jw : List Char → List Char → ℚ)
    (dBetween : List Char → List Char → ℤ)
    (lower : Char → Char) (nfd : Char → List Char)
    (c : NormalizedCandidate) (e : EventRec)
    (h0 : 0 ≤ jw c.normalizedName (normalizeName lower nfd e.name))
    (h1 : jw c.normalizedName (normalizeName lower nfd e.name) ≤ 1) :
    calculateSimilarity jw dBetween lower nfd c e =
      (40/100) * jw c.normalizedName (normalizeName lower nfd e.name) +
      (30/100) * (if c.startDate = e.startDate then 1
        else if (dBetween c.startDate e.startDate).natAbs ≤ 1 then 8/10
        else if (dBetween c.startDate e.startDate).natAbs ≤ 7 then 5/10
        else 0) +
      (20/100) * (if c.cityId = some e.cityId then 1 else 0) +
      (10/100) * (if c.venueId = Option.none ∨ c.venueId = some 0 ∨
          e.venueId = Option.none ∨ e.venueId = some 0 then 5/10
        else if c.venueId = e.venueId then 1 else 0) ∧
    0 ≤ calculateSimilarity jw dBetween lower nfd c e ∧
    calculateSimilarity jw dBetween lower nfd c e ≤ 1 := by
  have hfalsy : (jsFalsyId c.venueId || jsFalsyId e.venueId) = true ↔
      (c.venueId = Option.none ∨ c.venueId = some 0 ∨
        e.venueId = Option.none ∨ e.venueId = some 0) := by
    cases hc : c.venueId <;> cases he : e.venueId <;> simp [jsFalsyId]
  have hd0 : (0:ℚ) ≤ (if c.startDate = e.startDate then 1
      else if (dBetween c.startDate e.startDate).natAbs ≤ 1 then 8/10
      else if (dBetween c.startDate e.startDate).natAbs ≤ 7 then 5/10
      else 0) := by split_ifs <;> norm_num
  have hd1 : (if c.startDate = e.startDate then (1:ℚ)
      else if (dBetween c.startDate e.startDate).natAbs ≤ 1 then 8/10
      else if (dBetween c.startDate e.startDate).natAbs ≤ 7 then 5/10
      else 0) ≤ 1 := by split_ifs <;> norm_num
  have hl0 : (0:ℚ) ≤ (if c.cityId = some e.cityId then 1 else 0) := by
    split_ifs <;> norm_num
  have hl1 : (if c.cityId = some e.cityId then (1:ℚ) else 0) ≤ 1 := by
    split_ifs <;> norm_num
  have hv0 : (0:ℚ) ≤ (if jsFalsyId c.venueId || jsFalsyId e.venueId then 5/10
      else if c.venueId = e.venueId then 1 else 0) := by split_ifs <;> norm_num
  have hv1 : (if jsFalsyId c.venueId || jsFalsyId e.venueId then (5:ℚ)/10
      else if c.venueId = e.venueId then 1 else 0) ≤ 1 := by split_ifs <;> norm_num
  refine ⟨?_, ?_, ?_⟩
  · simp only [calculateSimilarity]
    by_cases hv : c.venueId = Option.none ∨ c.venueId = some 0 ∨
        e.venueId = Option.none ∨ e.venueId = some 0
    · rw [if_pos (hfalsy.mpr hv), if_pos hv]
    · rw [if_neg (fun hb => hv (hfalsy.mp hb)), if_neg hv]
  · simp only [calculateSimilarity]
    linarith
  · simp only [calculateSimilarity]
    linarith

/-- C3 witness: the amended formula and the bounds instantiated at a pair
with known venues that differ. -/
theorem calculateSimilarity_formula_witness :
    0 ≤ calculateSimilarity (fun _ _ => 1/2) (fun _ _ => 3) asciiLower asciiNFD
      ⟨"timitar".toList, "2025-07-10".toList, some 2, some 4⟩
      ⟨"timitar agadir".toList, "2025-07-12".toList, 2, some 6⟩ ∧
    calculateSimilarity (fun _ _ => 1/2) (fun _ _ => 3) asciiLower asciiNFD
      ⟨"timitar".toList, "2025-07-10".toList, some 2, some 4⟩
      ⟨"timitar agadir".toList, "2025-07-12".toList, 2, some 6⟩ ≤ 1 :=
  (calculateSimilarity_formula (fun _ _ => 1/2) (fun _ _ => 3) asciiLower asciiNFD
    ⟨"timitar".toList, "2025-07-10".toList, some 2, some 4⟩
    ⟨"timitar agadir".toList, "2025-07-12".toList, 2, some 6⟩
    (by norm_num) (by norm_num)).2

/-- `Math.max` over a non-empty list is an upper bound of the list that is
attained by one of its elements. -/
theorem jsMaxList_spec (x : ℚ) (xs : List ℚ) :
    jsMaxList (x :: xs) ∈ x :: xs ∧ ∀ y ∈ x :: xs, y ≤ jsMaxList (x :: xs) := by
  induction xs generalizing x with
  | nil => simp [jsMaxList]
  | cons z zs ih =>
    have hmx : jsMaxList (x :: z :: zs) = jsMaxList (max x z :: zs) := by
      simp [jsMaxList]
    obtain ⟨hmem, hub⟩ := ih (max x z)
    constructor
    · rw [hmx]
      rcases List.mem_cons.mp hmem with h | h
      · rcases max_choice x z with hc | hc <;> rw [h, hc] <;> simp
      · simp [h]
    · intro y hy
      rw [hmx]
      have hm : x ⊔ z ≤ jsMaxList (x ⊔ z :: zs) := hub _ (List.mem_cons_self _ _)
      rcases List.mem_cons.mp hy with h | hy'
      · exact le_trans (h.le.trans (le_max_left x z)) hm
      rcases List.mem_cons.mp hy' with h | h
      · exact le_trans (h.le.trans (le_max_right x z)) hm
      · exact hub _ (List.mem_cons_of_mem _ h)

/-- `Math.max` over any non-empty list: attained upper bound. -/
theorem jsMaxList_ne_nil_spec (l : List ℚ) (hl : l ≠ []) :
    jsMaxList l ∈ l ∧ ∀ y ∈ l, y ≤ jsMaxList l := by
  cases l with
  | nil => exact absurd rfl hl
  | cons x xs => exact jsMaxList_spec x xs

/-- The source-agreement factor always lies in [0, 1] and is 0.5 for at most
one source. -/
theorem calculateSourceAgreement_bounds (lower : Char → Char)
    (nfd : Char → List Char) (normDate : List Char → List Char)
    (event : ScoredEvent) (sources : List EventSourceRec) :
    0 ≤ calculateSourceAgreement lower nfd normDate event sources ∧
    calculateSourceAgreement lower nfd normDate event sources ≤ 1 ∧
    (sources.length ≤ 1 →
      calculateSourceAgreement lower nfd normDate event sources = 5/10) := by
  by_cases hle : sources.length ≤ 1
  · norm_num [calculateSourceAgreement, hle]
  · refine ⟨?_, ?_, fun h => absurd h hle⟩ <;>
    · simp only [calculateSourceAgreement, if_neg hle]
      split_ifs <;> norm_num

/-- C4: the recomputed confidence equals
0.35·R + 0.25·C + 0.20·A + 0.10·T + 0.10·H where R is the maximum source
reliability (0.3 with no sources), C the weighted completeness, A the source
agreement (0.5 for at most one source), T = max(0, 1 - days/90) (365 days
when never verified) and H the historical accuracy defaulting to 0.5; and
the result lies in [0, 1] whenever reliabilities, historical accuracies and
the day count are themselves in range. -/
theorem calculateConfidenceScore_spec (lower : Char → Char)
    (nfd : Char → List Char) (normDate : List Char → List Char)
    (daysB : List Char → ℚ) (hist : Option Nat → Option ℚ)
    (event : ScoredEvent) (sources : List EventSourceRec)
    (hrel : ∀ s ∈ sources, 0 ≤ s.source.reliabilityScore ∧
      s.source.reliabilityScore ≤ 1)
    (hhist : ∀ i q, hist i = some q → 0 ≤ q ∧ q ≤ 1)
    (hdays : ∀ d, 0 ≤ daysB d) :
    calculateConfidenceScore lower nfd normDate daysB hist event sources =
      (35/100) * (if 0 < sources.length then
          jsMaxList (sources.map (fun s => s.source.reliabilityScore)) else 3/10) +
      (25/100) * ((([event.name.isSome, event.startDate.isSome, event.cityId.isSome,
            event.status.isSome].countP id : ℚ) / 4) * (7/10) +
          (([event.endDate.isSome, event.venueId.isSome, event.description.isSome,
            event.officialWebsite.isSome].countP id : ℚ) / 4) * (3/10)) +
      (20/100) * calculateSourceAgreement lower nfd normDate event sources +
      (10/100) * max 0 (1 - (match event.lastVerifiedAt with
          | some d => daysB d
          | Option.none => 365) / 90) +
      (10/100) * ((hist ((sources.head?).map EventSourceRec.sourceId)).getD (5/10)) ∧
    (∀ s ∈ sources, s.source.reliabilityScore ≤
      jsMaxList (sources.map (fun s => s.source.reliabilityScore))) ∧
    (sources ≠ [] →
      jsMaxList (sources.map (fun s => s.source.reliabilityScore)) ∈
        sources.map (fun s => s.source.reliabilityScore)) ∧
    (sources.length ≤ 1 →
      calculateSourceAgreement lower nfd normDate event sources = 5/10) ∧
    0 ≤ calculateConfidenceScore lower nfd normDate daysB hist event sources ∧
    calculateConfidenceScore lower nfd normDate daysB hist event sources ≤ 1 := by
  have hA := calculateSourceAgreement_bounds lower nfd normDate event sources
  have hR : 0 ≤ (if 0 < sources.length then
      jsMaxList (sources.map (fun s => s.source.reliabilityScore)) else 3/10) ∧
      (if 0 < sources.length then
        jsMaxList (sources.map (fun s => s.source.reliabilityScore)) else 3/10) ≤ 1 := by
    cases hsrc : sources with
    | nil => norm_num
    | cons s ss =>
      have hne : (s :: ss).map (fun t => t.source.reliabilityScore) ≠ [] := by simp
      have hms := jsMaxList_ne_nil_spec _ hne
      rw [if_pos (by simp)]
      constructor
      · refine le_trans (hrel s (hsrc ▸ List.mem_cons_self s ss)).1 ?_
        exact hms.2 _ (List.mem_map.mpr ⟨s, List.mem_cons_self s ss, rfl⟩)
      · rcases List.mem_map.mp hms.1 with ⟨t, htm, hte⟩
        exact hte ▸ (hrel t (hsrc ▸ htm)).2
  have hreq : ([event.name.isSome, event.startDate.isSome, event.cityId.isSome,
      event.status.isSome].countP id) ≤ 4 := by
    have := List.countP_le_length (l := [event.name.isSome, event.startDate.isSome,
      event.cityId.isSome, event.status.isSome]) id
    simpa using this
  have hopt : ([event.endDate.isSome, event.venueId.isSome, event.description.isSome,
      event.officialWebsite.isSome].countP id) ≤ 4 := by
    have := List.countP_le_length (l := [event.endDate.isSome, event.venueId.isSome,
      event.description.isSome, event.officialWebsite.isSome]) id
    simpa using this
  have hC : 0 ≤ (([event.name.isSome, event.startDate.isSome, event.cityId.isSome,
      event.status.isSome].countP id : ℚ) / 4) * (7/10) +
      (([event.endDate.isSome, event.venueId.isSome, event.description.isSome,
        event.officialWebsite.isSome].countP id : ℚ) / 4) * (3/10) ∧
      (([event.name.isSome, event.startDate.isSome, event.cityId.isSome,
        event.status.isSome].countP id : ℚ) / 4) * (7/10) +
      (([event.endDate.isSome, event.venueId.isSome, event.description.isSome,
        event.officialWebsite.isSome].countP id : ℚ) / 4) * (3/10) ≤ 1 := by
    have h1 : (([event.name.isSome, event.startDate.isSome, event.cityId.isSome,
        event.status.isSome].countP id : ℚ)) ≤ 4 := by exact_mod_cast hreq
    have h2 : (([event.endDate.isSome, event.venueId.isSome, event.description.isSome,
        event.officialWebsite.isSome].countP id : ℚ)) ≤ 4 := by exact_mod_cast hopt
    have h3 : (0:ℚ) ≤ (([event.name.isSome, event.startDate.isSome, event.cityId.isSome,
        event.status.isSome].countP id : ℚ)) := by positivity
    have h4 : (0:ℚ) ≤ (([event.endDate.isSome, event.venueId.isSome,
        event.description.isSome, event.officialWebsite.isSome].countP id : ℚ)) := by
      positivity
    constructor <;> [positivity; linarith]
  have hT : 0 ≤ max (0:ℚ) (1 - (match event.lastVerifiedAt with
      | some d => daysB d
      | Option.none => 365) / 90) ∧
      max (0:ℚ) (1 - (match event.lastVerifiedAt with
        | some d => daysB d
        | Option.none => 365) / 90) ≤ 1 := by
    have hd : 0 ≤ (match event.lastVerifiedAt with
        | some d => daysB d
        | Option.none => (365:ℚ)) := by
      cases event.lastVerifiedAt with
      | some d => exact hdays d
      | none => norm_num
    refine ⟨le_max_left _ _, max_le (by norm_num) ?_⟩
    have : 0 ≤ (match event.lastVerifiedAt with
        | some d => daysB d
        | Option.none => (365:ℚ)) / 90 := by positivity
    linarith
  have hH : 0 ≤ ((hist ((sources.head?).map EventSourceRec.sourceId)).getD (5/10)) ∧
      ((hist ((sources.head?).map EventSourceRec.sourceId)).getD (5/10)) ≤ 1 := by
    cases hh : hist ((sources.head?).map EventSourceRec.sourceId) with
    | some q => simpa using hhist _ q hh
    | none => norm_num
  have heq : calculateConfidenceScore lower nfd normDate daysB hist event sources =
      (35/100) * (if 0 < sources.length then
          jsMaxList (sources.map (fun s => s.source.reliabilityScore)) else 3/10) +
      (25/100) * ((([event.name.isSome, event.startDate.isSome, event.cityId.isSome,
            event.status.isSome].countP id : ℚ) / 4) * (7/10) +
          (([event.endDate.isSome, event.venueId.isSome, event.description.isSome,
            event.officialWebsite.isSome].countP id : ℚ) / 4) * (3/10)) +
      (20/100) * calculateSourceAgreement lower nfd normDate event sources +
      (10/100) * max 0 (1 - (match event.lastVerifiedAt with
          | some d => daysB d
          | Option.none => 365) / 90) +
      (10/100) * ((hist ((sources.head?).map EventSourceRec.sourceId)).getD (5/10)) := rfl
  refine ⟨heq, ?_, ?_, hA.2.2, ?_, ?_⟩
  · intro s hs
    have hne : sources.map (fun u => u.source.reliabilityScore) ≠ [] := by
      cases sources with
      | nil => cases hs
      | cons t ts => simp
    exact (jsMaxList_ne_nil_spec _ hne).2 _ (List.mem_map.mpr ⟨s, hs, rfl⟩)
  · intro hne
    have hne' : sources.map (fun u => u.source.reliabilityScore) ≠ [] := by
      cases sources with
      | nil => exact absurd rfl hne
      | cons t ts => simp
    exact (jsMaxList_ne_nil_spec _ hne').1
  · rw [heq]
    linarith [hR.1, hR.2, hC.1, hC.2, hA.1, hA.2.1, hT.1, hT.2, hH.1, hH.2]
  · rw [heq]
    linarith [hR.1, hR.2, hC.1, hC.2, hA.1, hA.2.1, hT.1, hT.2, hH.1, hH.2]

/-- C4 witness: the bounds instantiated at a two-source event fixture. -/
theorem calculateConfidenceScore_spec_witness :
    0 ≤ calculateConfidenceScore asciiLower asciiNFD id (fun _ => 10)
      (fun _ => some (6/10))
      ⟨some "gnaoua".toList, some "2025-06-26".toList, some 3,
        some "confirmed".toList, Option.none, Option.none, Option.none,
        Option.none, some "2025-01-01".toList⟩
      [⟨1, ⟨8/10⟩, Option.none⟩, ⟨2, ⟨1⟩, Option.none⟩] ∧
    calculateConfidenceScore asciiLower asciiNFD id (fun _ => 10)
      (fun _ => some (6/10))
      ⟨some "gnaoua".toList, some "2025-06-26".toList, some 3,
        some "confirmed".toList, Option.none, Option.none, Option.none,
        Option.none, some "2025-01-01".toList⟩
      [⟨1, ⟨8/10⟩, Option.none⟩, ⟨2, ⟨1⟩, Option.none⟩] ≤ 1 := by
  have h := calculateConfidenceScore_spec asciiLower asciiNFD id (fun _ => 10)
    (fun _ => some (6/10))
    ⟨some "gnaoua".toList, some "2025-06-26".toList, some 3,
      some "confirmed".toList, Option.none, Option.none, Option.none,
      Option.none, some "2025-01-01".toList⟩
    [⟨1, ⟨8/10⟩, Option.none⟩, ⟨2, ⟨1⟩, Option.none⟩]
    (by intro s hs
        simp only [List.mem_cons, List.mem_singleton, List.not_mem_nil, or_false] at hs
        rcases hs with h | h <;> subst h <;> norm_num)
    (by intro i q hq
        simp only [Option.some.injEq] at hq
        subst hq
        norm_num)
    (by intro d; norm_num)
  exact ⟨h.2.2.2.2.1, h.2.2.2.2.2⟩

/-- Every batch of the import loop contributes exactly its length to
indexed + errors, whether it fails wholesale, per document, or not at all
(stated with an explicit length bound for the induction). -/
theorem importBatches_count_aux (imp : List SearchDocument → Option (List Bool))
    (himp : ∀ b r, imp b = some r → r.length = b.length) (n : Nat) :
    ∀ docs : List SearchDocument, docs.length ≤ n →
      (importBatches imp docs).1 + (importBatches imp docs).2.1 = docs.length := by
  induction n with
  | zero =>
    intro docs hlen
    have hd : docs = [] := by
      cases docs with
      | nil => rfl
      | cons a as => simp at hlen
    subst hd
    simp [importBatches]
  | succ n ih =>
    intro docs hlen
    by_cases hd : docs = []
    · subst hd
      simp [importBatches]
    · have hpos : 0 < docs.length := List.length_pos.mpr hd
      rw [importBatches, dif_neg hd]
      rcases hrec : importBatches imp (docs.drop 100) with ⟨i, e, c⟩
      have ihr := ih (docs.drop 100) (by
        simp only [List.length_drop]
        omega)
      rw [hrec] at ihr
      simp only [hrec]
      cases himpb : imp (docs.take 100) with
      | none =>
        simp only [List.length_take, List.length_drop] at ihr ⊢
        omega
      | some results =>
        have hrl : results.length = (docs.take 100).length := himp _ _ himpb
        have hcnt : results.countP (fun r => !r) ≤ (docs.take 100).length :=
          hrl ▸ List.countP_le_length _
        simp only [List.length_take, List.length_drop] at ihr hcnt ⊢
        omega

/-- The import loop counts add up to the number of submitted documents. -/
theorem importBatches_count (imp : List SearchDocument → Option (List Bool))
    (himp : ∀ b r, imp b = some r → r.length = b.length)
    (docs : List SearchDocument) :
    (importBatches imp docs).1 + (importBatches imp docs).2.1 = docs.length :=
  importBatches_count_aux imp himp docs.length docs le_rfl

/-- C1: fullReindex recreates the collection from scratch (its result is
independent of the prior search state and the new collection exists), selects
exactly the joined rows with status announced or confirmed, imports their
transforms in batches of 100, and returns (indexed, errors) with
indexed + errors equal to the number of selected events; failed documents and
failed batches only increment errors. -/
theorem fullReindex_spec (dops : DateOps)
    (imp : List SearchDocument → Option (List Bool))
    (prior : SearchState) (db : Db)
    (himp : ∀ b r, imp b = some r → r.length = b.length) :
    (fullReindex dops imp prior db).2.1 + (fullReindex dops imp prior db).2.2 =
      (db.events.filter (fun e => indexableStatus e.status)).length ∧
    (∀ prior' : SearchState,
      fullReindex dops imp prior' db = fullReindex dops imp prior db) ∧
    ((fullReindex dops imp prior db).1.collection).isSome = true := by
  refine ⟨?_, fun _ => rfl, ?_⟩
  · have h := importBatches_count imp himp
      ((db.events.filter (fun e => indexableStatus e.status)).map (fun e =>
        toSearchDocument dops e (genresFor db e.id) (artistsFor db e.id)
          (hasTicketsFor db e.id)))
    simp only [List.length_map] at h
    simpa [fullReindex] using h
  · simp [fullReindex]

/-- C1 witness: on a store with one announced and one cancelled event and a
fully succeeding importer, indexed + errors is the number of indexable
events, namely 1. -/
theorem fullReindex_spec_witness :
    (fullReindex dops0 imp0 ⟨Option.none⟩ sampleDb).2.1 +
      (fullReindex dops0 imp0 ⟨Option.none⟩ sampleDb).2.2 = 1 := by
  have h := (fullReindex_spec dops0 imp0 ⟨Option.none⟩ sampleDb
    (by
      intro b r hr
      simp only [imp0, Option.some.injEq] at hr
      subst hr
      simp)).1
  rw [h]
  decide

/-- A swallowed-error delete always succeeds and acts as removal by id: the
resulting collection is the old one with every document of that id filtered
out (unchanged when the document, or the collection, is absent). -/
theorem tryDeleteDoc_collection (eventId : Nat) (st : SearchState) :
    (tryDeleteDoc eventId st).collection =
      st.collection.map (fun coll => coll.filter (fun d => !(d.id == eventId))) := by
  cases hc : st.collection with
  | none => simp [tryDeleteDoc, deleteDocRaw, hc]
  | some coll =>
    by_cases ha : coll.any (fun d => d.id == eventId)
    · simp [tryDeleteDoc, deleteDocRaw, hc, ha]
    · have hf : coll.filter (fun d => !(d.id == eventId)) = coll :=
        List.filter_eq_self.mpr (by
          intro a haa
          have hfalse : (a.id == eventId) = false := by
            by_contra hx
            exact ha (List.any_eq_true.mpr ⟨a, haa, by simpa using hx⟩)
          simp [hfalse])
      simp [tryDeleteDoc, deleteDocRaw, hc, ha, hf]

/-- Upserting a document into a collection holding at most one document of
its id leaves exactly one document of that id. -/
theorem countP_upsertDoc (d : SearchDocument) (coll : List SearchDocument)
    (h : coll.countP (fun x => x.id == d.id) ≤ 1) :
    (upsertDoc d coll).countP (fun x => x.id == d.id) = 1 := by
  unfold upsertDoc
  by_cases ha : coll.any (fun x => x.id == d.id)
  · rw [if_pos ha, List.countP_map]
    have hcomp : ((fun x : SearchDocument => x.id == d.id) ∘
        (fun x => if x.id == d.id then d else x)) =
        fun x : SearchDocument => x.id == d.id := by
      funext x
      by_cases hx : x.id = d.id <;> simp [hx]
    rw [hcomp]
    have hpos : 0 < coll.countP (fun x => x.id == d.id) := by
      rcases List.any_eq_true.mp ha with ⟨x, hx, hxe⟩
      exact List.countP_pos_iff.mpr ⟨x, hx, hxe⟩
    omega
  · rw [if_neg ha, List.countP_append]
    have h0 : coll.countP (fun x => x.id == d.id) = 0 :=
      List.countP_eq_zero.mpr (by
        intro a haa hae
        exact absurd (List.any_eq_true.mpr ⟨a, haa, hae⟩) ha)
    simp [h0]

/-- C7: indexEvent deletes the document whenever the event is missing or its
status is not indexable, and otherwise upserts exactly one document; both the
delete branch and removeFromIndex are total and succeed when the document is
absent (missing-document errors swallowed), and removal is idempotent. -/
theorem indexEvent_removal_spec (dops : DateOps) (db : Db) (eventId : Nat)
    (st : SearchState) :
    (db.events.find? (fun e => e.id == eventId) = Option.none →
      indexEvent dops db eventId st =
        ⟨st.collection.map (fun coll => coll.filter (fun d => !(d.id == eventId)))⟩) ∧
    (∀ e, db.events.find? (fun e => e.id == eventId) = some e →
      indexableStatus e.status = false →
      indexEvent dops db eventId st =
        ⟨st.collection.map (fun coll => coll.filter (fun d => !(d.id == eventId)))⟩) ∧
    (∀ e, db.events.find? (fun e => e.id == eventId) = some e →
      indexableStatus e.status = true →
      indexEvent dops db eventId st =
        ⟨st.collection.map (upsertDoc (toSearchDocument dops e (genresFor db eventId)
          (artistsFor db eventId) (hasTicketsFor db eventId)))⟩ ∧
      (∀ coll, st.collection = some coll →
        coll.countP (fun x => x.id == eventId) ≤ 1 →
        ((indexEvent dops db eventId st).collection.getD []).countP
          (fun x => x.id == eventId) = 1)) ∧
    (removeFromIndex eventId st =
      ⟨st.collection.map (fun coll => coll.filter (fun d => !(d.id == eventId)))⟩) ∧
    (removeFromIndex eventId (removeFromIndex eventId st) =
      removeFromIndex eventId st) ∧
    (∀ coll, st.collection = some coll → (∀ d ∈ coll, ¬d.id = eventId) →
      removeFromIndex eventId st = st) := by
  have hrmAll : ∀ s : SearchState, removeFromIndex eventId s =
      ⟨s.collection.map (fun coll => coll.filter (fun d => !(d.id == eventId)))⟩ := by
    intro s
    have h := tryDeleteDoc_collection eventId s
    show tryDeleteDoc eventId s = _
    cases htd : tryDeleteDoc eventId s with
    | mk c =>
      rw [htd] at h
      simp only at h
      rw [h]
  refine ⟨?_, ?_, ?_, hrmAll st, ?_, ?_⟩
  · intro hfind
    simp only [indexEvent, hfind]
    exact hrmAll st
  · intro e hfind hstat
    simp only [indexEvent, hfind, hstat, Bool.not_false, if_true]
    exact hrmAll st
  · intro e hfind hstat
    have heid : e.id = eventId := by
      have := List.find?_some hfind
      simpa using this
    have hres : indexEvent dops db eventId st =
        ⟨st.collection.map (upsertDoc (toSearchDocument dops e (genresFor db eventId)
          (artistsFor db eventId) (hasTicketsFor db eventId)))⟩ := by
      simp [indexEvent, hfind, hstat]
    refine ⟨hres, ?_⟩
    intro coll hcoll hle
    rw [hres]
    simp only [hcoll, Option.map_some, Option.getD_some]
    have hdid : (toSearchDocument dops e (genresFor db eventId)
        (artistsFor db eventId) (hasTicketsFor db eventId)).id = eventId := heid
    rw [show (fun x : SearchDocument => x.id == eventId) =
        (fun x : SearchDocument => x.id == (toSearchDocument dops e (genresFor db eventId)
          (artistsFor db eventId) (hasTicketsFor db eventId)).id) by
      funext x
      rw [hdid]]
    apply countP_upsertDoc
    rw [hdid]
    exact hle
  · rw [hrmAll st, hrmAll ⟨st.collection.map
      (fun coll => coll.filter (fun d => !(d.id == eventId)))⟩]
    cases hsc : st.collection with
    | none => rfl
    | some coll => simp [List.filter_filter]
  · intro coll hcoll habs
    have hf : coll.filter (fun d => !(d.id == eventId)) = coll :=
      List.filter_eq_self.mpr (by
        intro a haa
        simpa using habs a haa)
    cases st with
    | mk c =>
      change c = some coll at hcoll
      subst hcoll
      rw [hrmAll ⟨some coll⟩]
      simp [hf]

/-- C7 witness: removing event 99 from an empty search collection succeeds
and leaves the collection unchanged. -/
theorem indexEvent_removal_spec_witness :
    removeFromIndex 99 ⟨some []⟩ = ⟨some []⟩ :=
  (indexEvent_removal_spec dops0 sampleDb 99 ⟨some []⟩).2.2.2.2.2 [] rfl
    (by intro d hd; cases hd)

/-- C9: fetchEvents is total at the public interface: a cache younger than
the TTL is served without consulting the store; on a store error the last
cached list is returned (empty when none exists) and the state is unchanged;
on a successful query with no fresh cache the mapped rows are returned and
cached with the current timestamp. -/
theorem fetchEvents_spec (lower : Char → Char) (nfd : Char → List Char)
    (parseF : List Char → Option ℚ) (now : Int)
    (outcome : Except Unit (List FestivalRow)) (st : FetchState) :
    (∀ cached, st.cachedEvents = some cached → now - st.cacheTimestamp < CACHE_TTL →
      fetchEvents lower nfd parseF now outcome st = (cached, st) ∧
      ∀ outcome', fetchEvents lower nfd parseF now outcome' st =
        fetchEvents lower nfd parseF now outcome st) ∧
    (outcome = .error () →
      (fetchEvents lower nfd parseF now outcome st).1 = st.cachedEvents.getD [] ∧
      (fetchEvents lower nfd parseF now outcome st).2 = st) ∧
    (∀ rows, outcome = .ok rows →
      (st.cachedEvents = Option.none ∨ CACHE_TTL ≤ now - st.cacheTimestamp) →
      fetchEvents lower nfd parseF now outcome st =
        (rows.map (rowToEvent lower nfd parseF),
          ⟨some (rows.map (rowToEvent lower nfd parseF)), now⟩)) := by
  refine ⟨?_, ?_, ?_⟩
  · intro cached hc httl
    constructor
    · simp [fetchEvents, hc, httl]
    · intro outcome'
      simp [fetchEvents, hc, httl]
  · intro herr
    subst herr
    cases hc : st.cachedEvents with
    | none => simp [fetchEvents, fetchEventsFetch, hc]
    | some cached =>
      by_cases httl : now - st.cacheTimestamp < CACHE_TTL
      · simp [fetchEvents, hc, httl]
      · simp [fetchEvents, fetchEventsFetch, hc, httl]
  · intro rows hok hstale
    subst hok
    cases hc : st.cachedEvents with
    | none => simp [fetchEvents, fetchEventsFetch, hc]
    | some cached =>
      rcases hstale with h | h
      · rw [hc] at h
        cases h
      · have httl : ¬(now - st.cacheTimestamp < CACHE_TTL) := not_lt.mpr h
        simp [fetchEvents, fetchEventsFetch, hc, httl]

/-- C9 witness: with a failing store and an empty cache, fetchEvents returns
the empty list and leaves the state unchanged. -/
theorem fetchEvents_spec_witness :
    (fetchEvents asciiLower asciiNFD (fun _ => Option.none) 0 (.error ())
        ⟨Option.none, 0⟩).1 = ([] : List SheetEvent) ∧
    (fetchEvents asciiLower asciiNFD (fun _ => Option.none) 0 (.error ())
        ⟨Option.none, 0⟩).2 = (⟨Option.none, 0⟩ : FetchState) :=
  (fetchEvents_spec asciiLower asciiNFD (fun _ => Option.none) 0 (.error ())
    ⟨Option.none, 0⟩).2.1 rfl

/-- Code-unit order linearity: a string below `a` is below `b` or `b` is
below `a`. -/
theorem jsStrLt_linearity : ∀ (c a b : List Char), jsStrLt c a = true →
    jsStrLt c b = true ∨ jsStrLt b a = true := by
  intro c
  induction c with
  | nil =>
    intro a b hca
    cases a with
    | nil => simp [jsStrLt] at hca
    | cons x xs =>
      cases b with
      | nil => right; simp [jsStrLt]
      | cons y ys => left; simp [jsStrLt]
  | cons z zs ih =>
    intro a b hca
    cases a with
    | nil => simp [jsStrLt] at hca
    | cons x xs =>
      cases b with
      | nil => right; simp [jsStrLt]
      | cons y ys =>
        simp only [jsStrLt] at hca ⊢
        by_cases h1 : z.toNat < x.toNat
        · by_cases h2 : z.toNat < y.toNat
          · left; simp [h2]
          · by_cases h3 : y.toNat < x.toNat
            · right; simp [h3]
            · omega
        · rw [if_neg h1] at hca
          by_cases h4 : x.toNat < z.toNat
          · rw [if_pos h4] at hca
            simp at hca
          · rw [if_neg h4] at hca
            by_cases h5 : z.toNat < y.toNat
            · left; simp [h5]
            · by_cases h6 : y.toNat < z.toNat
              · right
                have hyx : y.toNat < x.toNat := by omega
                simp [hyx]
              · rcases ih xs ys hca with h | h
                · left
                  simp [if_neg h5, if_neg (by omega : ¬y.toNat < z.toNat), h]
                · right
                  have hxy : ¬y.toNat < x.toNat := by omega
                  have hyx : ¬x.toNat < y.toNat := by omega
                  simp [if_neg hxy, if_neg hyx, h]

/-- Code-unit order asymmetry. -/
theorem jsStrLt_asymm : ∀ (a b : List Char), jsStrLt a b = true →
    jsStrLt b a = false := by
  intro a
  induction a with
  | nil =>
    intro b hab
    cases b with
    | nil => simp [jsStrLt] at hab
    | cons y ys => simp [jsStrLt]
  | cons x xs ih =>
    intro b hab
    cases b with
    | nil => simp [jsStrLt] at hab
    | cons y ys =>
      simp only [jsStrLt] at hab ⊢
      by_cases h1 : x.toNat < y.toNat
      · simp [if_neg (by omega : ¬y.toNat < x.toNat), if_pos h1]
      · rw [if_neg h1] at hab
        by_cases h2 : y.toNat < x.toNat
        · rw [if_pos h2] at hab
          simp at hab
        · rw [if_neg h2] at hab
          simp [if_neg h2, if_neg h1, ih ys hab]

/-- Non-strict code-unit order is transitive. -/
theorem jsStrLe_trans (a b c : List Char) (h1 : jsStrLe a b = true)
    (h2 : jsStrLe b c = true) : jsStrLe a c = true := by
  simp only [jsStrLe, Bool.not_eq_true'] at h1 h2 ⊢
  by_contra h3
  have h3' : jsStrLt c a = true := by
    cases hx : jsStrLt c a with
    | false => exact absurd hx h3
    | true => rfl
  rcases jsStrLt_linearity c a b h3' with h | h
  · rw [h] at h2; cases h2
  · rw [h] at h1; cases h1

/-- Non-strict code-unit order is total. -/
theorem jsStrLe_total (a b : List Char) :
    (jsStrLe a b || jsStrLe b a) = true := by
  simp only [jsStrLe]
  cases hx : jsStrLt b a with
  | false => simp
  | true => simp [jsStrLt_asymm b a hx]

/-- C10: getUpcomingEvents returns exactly the events whose start_date
string compares at least today's YYYY-MM-DD date, sorted ascending by
start_date; an event with an empty start_date is excluded by the same
comparison whenever today is non-empty. -/
theorem getUpcomingEvents_spec (today : List Char) (events : List SheetEvent) :
    (getUpcomingEvents today events).Perm
      (events.filter (fun e => jsStrLe today e.start_date)) ∧
    (getUpcomingEvents today events).Pairwise
      (fun a b => jsStrLe a.start_date b.start_date = true) ∧
    (∀ e, e ∈ getUpcomingEvents today events ↔
      e ∈ events ∧ jsStrLe today e.start_date = true) ∧
    (today ≠ [] → ∀ e ∈ getUpcomingEvents today events, e.start_date ≠ []) := by
  have hperm := List.mergeSort_perm
    (events.filter (fun e => jsStrLe today e.start_date))
    (fun a b => jsStrLe a.start_date b.start_date)
  have hmem : ∀ e, e ∈ getUpcomingEvents today events ↔
      e ∈ events ∧ jsStrLe today e.start_date = true := by
    intro e
    unfold getUpcomingEvents
    rw [hperm.mem_iff, List.mem_filter]
  refine ⟨hperm, ?_, hmem, ?_⟩
  · exact List.sorted_mergeSort
      (fun a b c hab hbc => jsStrLe_trans a.start_date b.start_date c.start_date hab hbc)
      (fun a b => jsStrLe_total a.start_date b.start_date) _
  · intro ht e he hnil
    have hle : jsStrLe today e.start_date = true := ((hmem e).mp he).2
    rw [hnil] at hle
    cases today with
    | nil => exact ht rfl
    | cons t ts => simp [jsStrLe, jsStrLt] at hle

/-- C10 witness: on the empty event list with a concrete date, every
returned event has a non-empty start_date (vacuously). -/
theorem getUpcomingEvents_spec_witness :
    ∀ e ∈ getUpcomingEvents "2025-06-01".toList [], e.start_date ≠ [] :=
  (getUpcomingEvents_spec "2025-06-01".toList []).2.2.2 (by decide)

/-- C6 counterexample: on the city table [abb (id 1), axy (id 2)] and input
"axx", the matcher returns city 1 (the first within Levenshtein distance 2 in
table order) even though city 2 is strictly nearer (distance 1 versus 2), so
it does not return the nearest city. -/
theorem matchCity_not_nearest_counterexample :
    matchCity asciiLower asciiNFD cxCities (some "axx".toList) = some 1 ∧
    levDist (normalizeName asciiLower asciiNFD "axy".toList)
        (normalizeName asciiLower asciiNFD "axx".toList) <
      levDist (normalizeName asciiLower asciiNFD "abb".toList)
        (normalizeName asciiLower asciiNFD "axx".toList) ∧
    levDist (normalizeName asciiLower asciiNFD "axy".toList)
        (normalizeName asciiLower asciiNFD "axx".toList) ≤ 2 := by
  refine ⟨?_, ?_, ?_⟩ <;>
    simp +decide [matchCity, cxCities, normalizeName, removeNoise, collapseWs,
      collapseClass, trimWs, dropTrailClass, asciiLower, asciiNFD,
      isCombiningMark, isKeepChar, isJsSpace, isDigitChar, isLowerAlpha,
      levDist, List.isPrefixOf]

/-- C6 (amended): the matcher returns null on null or empty input; an exact
normalized match against either recognized name variant wins first; failing
that, it returns the id of the first city in table order whose normalized
primary name lies within Levenshtein distance 2 of the normalized input (not
necessarily the nearest such city); it returns null exactly when no city is
within the ceiling, and never fabricates an id. -/
theorem matchCity_spec (lower : Char → Char) (nfd : Char → List Char)
    (cities : List CityRow) :
    matchCity lower nfd cities Option.none = Option.none ∧
    (∀ s, s = [] → matchCity lower nfd cities (some s) = Option.none) ∧
    (∀ s i, matchCity lower nfd cities (some s) = some i →
      ∃ c ∈ cities, c.id = i ∧
        (normalizeName lower nfd c.name = normalizeName lower nfd s ∨
         normalizeName lower nfd c.name_fr = normalizeName lower nfd s ∨
         levDist (normalizeName lower nfd c.name) (normalizeName lower nfd s) ≤ 2)) ∧
    (∀ s, s ≠ [] → matchCity lower nfd cities (some s) = Option.none →
      ∀ c ∈ cities,
        ¬normalizeName lower nfd c.name = normalizeName lower nfd s ∧
        ¬normalizeName lower nfd c.name_fr = normalizeName lower nfd s ∧
        2 < levDist (normalizeName lower nfd c.name) (normalizeName lower nfd s)) ∧
    (∀ s, s ≠ [] →
      (∀ c ∈ cities,
        ¬normalizeName lower nfd c.name = normalizeName lower nfd s ∧
        ¬normalizeName lower nfd c.name_fr = normalizeName lower nfd s) →
      matchCity lower nfd cities (some s) =
        (cities.find? (fun c =>
          decide (levDist (normalizeName lower nfd c.name)
            (normalizeName lower nfd s) ≤ 2))).map CityRow.id) := by
  refine ⟨rfl, ?_, ?_, ?_, ?_⟩
  · intro s hs
    subst hs
    rfl
  · intro s i h
    by_cases hs : s = []
    · subst hs
      cases h
    · simp only [matchCity, if_neg hs] at h
      cases hex : cities.find? (fun c =>
          decide (normalizeName lower nfd c.name = normalizeName lower nfd s ∨
            normalizeName lower nfd c.name_fr = normalizeName lower nfd s)) with
      | some c =>
        rw [hex] at h
        have hm := List.mem_of_find?_eq_some hex
        have hp := List.find?_some hex
        simp only [decide_eq_true_eq] at hp
        refine ⟨c, hm, by simpa using h, ?_⟩
        rcases hp with hp | hp
        · exact Or.inl hp
        · exact Or.inr (Or.inl hp)
      | none =>
        rw [hex] at h
        cases hfz : cities.find? (fun c =>
            decide (levDist (normalizeName lower nfd c.name)
              (normalizeName lower nfd s) ≤ 2)) with
        | some c =>
          rw [hfz] at h
          have hm := List.mem_of_find?_eq_some hfz
          have hp := List.find?_some hfz
          simp only [decide_eq_true_eq] at hp
          exact ⟨c, hm, by simpa using h, Or.inr (Or.inr hp)⟩
        | none =>
          rw [hfz] at h
          cases h
  · intro s hs h c hc
    simp only [matchCity, if_neg hs] at h
    cases hex : cities.find? (fun c =>
        decide (normalizeName lower nfd c.name = normalizeName lower nfd s ∨
          normalizeName lower nfd c.name_fr = normalizeName lower nfd s)) with
    | some c' =>
      rw [hex] at h
      cases h
    | none =>
      rw [hex] at h
      have hnex := List.find?_eq_none.mp hex c hc
      simp only [decide_eq_true_eq] at hnex
      push_neg at hnex
      cases hfz : cities.find? (fun c =>
          decide (levDist (normalizeName lower nfd c.name)
            (normalizeName lower nfd s) ≤ 2)) with
      | some c' =>
        rw [hfz] at h
        cases h
      | none =>
        have hnfz := List.find?_eq_none.mp hfz c hc
        simp only [decide_eq_true_eq, not_le] at hnfz
        exact ⟨hnex.1, hnex.2, hnfz⟩
  · intro s hs hno
    simp only [matchCity, if_neg hs]
    have hex : cities.find? (fun c =>
        decide (normalizeName lower nfd c.name = normalizeName lower nfd s ∨
          normalizeName lower nfd c.name_fr = normalizeName lower nfd s)) =
        Option.none := by
      apply List.find?_eq_none.mpr
      intro c hc
      simp only [decide_eq_true_eq]
      push_neg
      exact ⟨(hno c hc).1, (hno c hc).2⟩
    rw [hex]
    cases hfz : cities.find? (fun c =>
        decide (levDist (normalizeName lower nfd c.name)
          (normalizeName lower nfd s) ≤ 2)) with
    | some c => simp
    | none => simp

/-- C6 witness: empty input returns null, and on the concrete table the
returned id 1 belongs to a listed city within the distance ceiling. -/
theorem matchCity_spec_witness :
    matchCity asciiLower asciiNFD cxCities (some []) = Option.none ∧
    ∃ c ∈ cxCities, c.id = 1 ∧
      (normalizeName asciiLower asciiNFD c.name =
        normalizeName asciiLower asciiNFD "axx".toList ∨
       normalizeName asciiLower asciiNFD c.name_fr =
        normalizeName asciiLower asciiNFD "axx".toList ∨
       levDist (normalizeName asciiLower asciiNFD c.name)
        (normalizeName asciiLower asciiNFD "axx".toList) ≤ 2) :=
  ⟨(matchCity_spec asciiLower asciiNFD cxCities).2.1 [] rfl,
   (matchCity_spec asciiLower asciiNFD cxCities).2.2.1 "axx".toList 1 (by
      simp +decide [matchCity, cxCities, normalizeName, removeNoise, collapseWs,
        collapseClass, trimWs, dropTrailClass, asciiLower, asciiNFD,
        isCombiningMark, isKeepChar, isJsSpace, isDigitChar, isLowerAlpha,
        levDist, List.isPrefixOf])⟩

/-- A trailing drop returns the empty list or keeps the original head. -/
theorem dropTrailClass_head (p : Char → Bool) (c : Char) (cs : List Char) :
    dropTrailClass p (c :: cs) = [] ∨
    ∃ r, dropTrailClass p (c :: cs) = c :: r := by
  cases h : dropTrailClass p cs with
  | nil =>
    by_cases hp : p c
    · left
      simp [dropTrailClass, h, hp]
    · right
      exact ⟨[], by simp [dropTrailClass, h, hp]⟩
  | cons a r =>
    right
    exact ⟨a :: r, by simp [dropTrailClass, h]⟩

/-- A trailing drop is a prefix of its input. -/
theorem dropTrailClass_pre (p : Char → Bool) :
    ∀ l : List Char, dropTrailClass p l <+: l := by
  intro l
  induction l with
  | nil => exact ⟨[], rfl⟩
  | cons c cs ih =>
    cases h : dropTrailClass p cs with
    | nil =>
      by_cases hp : p c
      · simp only [dropTrailClass, h, hp]
        exact List.nil_prefix
      · simp only [dropTrailClass, h, hp]
        exact ⟨cs, rfl⟩
    | cons a r =>
      rw [h] at ih
      simp only [dropTrailClass, h]
      obtain ⟨t, ht⟩ := ih
      exact ⟨t, by simp [ht]⟩

/-- Dropping a trailing run is idempotent. -/
theorem dropTrailClass_idem (p : Char → Bool) :
    ∀ l : List Char, dropTrailClass p (dropTrailClass p l) = dropTrailClass p l := by
  intro l
  induction l with
  | nil => rfl
  | cons c cs ih =>
    cases h : dropTrailClass p cs with
    | nil =>
      by_cases hp : p c
      · simp [dropTrailClass, h, hp]
      · simp [dropTrailClass, h, hp]
    | cons a r =>
      rw [h] at ih
      have hgoal : dropTrailClass p (c :: cs) = c :: a :: r := by
        simp [dropTrailClass, h]
      rw [hgoal]
      have h2 : dropTrailClass p (c :: a :: r) =
          match dropTrailClass p (a :: r) with
          | [] => if p c then [] else [c]
          | r' => c :: r' := rfl
      rw [h2, ih]

/-- `dropWhile` does nothing when the head is not in the class. -/
theorem dropWhile_eq_self_of_head (p : Char → Bool) (l : List Char)
    (h : ∀ c cs, l = c :: cs → p c = false) : l.dropWhile p = l := by
  cases l with
  | nil => rfl
  | cons c cs =>
    rw [List.dropWhile_cons, h c cs rfl]
    simp

/-- A leading drop on a list with no leading class character commutes away
after a trailing drop. -/
theorem dropWhile_dropTrail_of_head (p : Char → Bool) (m : List Char)
    (hh : ∀ c cs, m = c :: cs → p c = false) :
    List.dropWhile p (dropTrailClass p m) = dropTrailClass p m := by
  cases m with
  | nil => rfl
  | cons c cs =>
    rcases dropTrailClass_head p c cs with h | ⟨r, h⟩
    · rw [h]
      rfl
    · rw [h]
      refine dropWhile_eq_self_of_head p _ ?_
      intro c' cs' hcc
      have hc : c' = c := by
        injection hcc with h1 _
        exact h1.symm
      exact hc ▸ hh c cs rfl

/-- JavaScript trim is idempotent. -/
theorem trimWs_idem (l : List Char) : trimWs (trimWs l) = trimWs l := by
  unfold trimWs
  have hhead : ∀ c cs, List.dropWhile isJsSpace l = c :: cs → isJsSpace c = false := by
    intro c cs hcc
    have h := List.head?_dropWhile_not isJsSpace l
    rw [hcc] at h
    simpa using h
  rw [dropWhile_dropTrail_of_head isJsSpace _ hhead, dropTrailClass_idem]

/-- A run-collapse of a nonempty list headed by a non-class character keeps
that head. -/
theorem collapseClass_cons_not (p : Char → Bool) (rep : Char) (x : Char)
    (xs : List Char) (hx : p x = false) :
    ∃ ys, collapseClass p rep (x :: xs) = x :: ys := by
  cases xs with
  | nil => exact ⟨[], by simp [collapseClass, hx]⟩
  | cons b bs => exact ⟨collapseClass p rep (b :: bs), by simp [collapseClass, hx]⟩

/-- The tail of a collapsed list is collapsed. -/
theorem collapsed_tail (p : Char → Bool) (rep : Char) (c : Char)
    (cs : List Char) (h : Collapsed p rep (c :: cs)) : Collapsed p rep cs :=
  ⟨fun x hx hpx => h.1 x (List.mem_cons_of_mem _ hx) hpx, h.2.tail⟩

/-- The output of a run-collapse is in collapsed normal form. -/
theorem collapsed_collapse (p : Char → Bool) (rep : Char) (hrep : p rep = true) :
    ∀ (n : Nat) (l : List Char), l.length ≤ n →
      Collapsed p rep (collapseClass p rep l) := by
  intro n
  induction n with
  | zero =>
    intro l hl
    have : l = [] := by
      cases l with
      | nil => rfl
      | cons a as => simp at hl
    subst this
    exact ⟨by simp [collapseClass], List.chain'_nil⟩
  | succ n ih =>
    intro l hl
    match l with
    | [] => exact ⟨by simp [collapseClass], List.chain'_nil⟩
    | [c] =>
      by_cases hp : p c
      · refine ⟨?_, ?_⟩
        · intro x hx _
          simp only [collapseClass, hp, if_true] at hx
          simpa using hx
        · simp only [collapseClass, hp, if_true]
          exact List.chain'_singleton rep
      · refine ⟨?_, ?_⟩
        · intro x hx hpx
          simp only [collapseClass, hp, if_false] at hx
          have : x = c := by simpa using hx
          rw [this] at hpx
          rw [hpx] at hp
          cases hp rfl
        · simp only [collapseClass, hp, if_false]
          exact List.chain'_singleton c
    | c1 :: c2 :: cs =>
      have hlen : (c2 :: cs).length ≤ n := by
        simp at hl ⊢
        omega
      have ihr := ih (c2 :: cs) hlen
      by_cases hand : (p c1 && p c2) = true
      · rw [show collapseClass p rep (c1 :: c2 :: cs) =
            collapseClass p rep (c2 :: cs) by simp [collapseClass, hand]]
        exact ihr
      · rw [show collapseClass p rep (c1 :: c2 :: cs) =
            (if p c1 then rep else c1) :: collapseClass p rep (c2 :: cs) by
          simp only [collapseClass, hand]
          rfl]
        refine ⟨?_, ?_⟩
        · intro x hx hpx
          rcases List.mem_cons.mp hx with hx1 | hx2
          · by_cases hp1 : p c1
            · rw [hx1]
              simp [hp1]
            · have hxc : x = c1 := by
                rw [hx1]
                simp [hp1]
              rw [hxc] at hpx
              exact absurd hpx hp1
          · exact ihr.1 x hx2 hpx
        · rw [List.chain'_cons']
          refine ⟨?_, ihr.2⟩
          intro y hy
          by_cases hp1 : p c1
          · have hp2 : p c2 = false := by
              cases hpc2 : p c2
              · rfl
              · rw [hp1, hpc2] at hand
                cases hand rfl
            obtain ⟨ys, hys⟩ := collapseClass_cons_not p rep c2 cs hp2
            rw [hys] at hy
            simp only [List.head?_cons, Option.mem_def, Option.some.injEq] at hy
            rw [← hy]
            intro hcon
            rw [hp2] at hcon
            cases hcon.2
          · intro hcon
            have h1 := hcon.1
            rw [if_neg hp1] at h1
            exact hp1 h1

/-- A list in collapsed normal form is a fixed point of the run-collapse. -/
theorem collapse_eq_self (p : Char → Bool) (rep : Char) :
    ∀ l : List Char, Collapsed p rep l → collapseClass p rep l = l := by
  intro l
  induction l with
  | nil => intro _; rfl
  | cons c cs ih =>
    intro hcol
    cases cs with
    | nil =>
      by_cases hp : p c
      · have hcr : c = rep := hcol.1 c (by simp) hp
        simp [collapseClass, hp, hcr]
      · simp [collapseClass, hp]
    | cons b bs =>
      have hadj : ¬(p c = true ∧ p b = true) := (List.chain'_cons.mp hcol.2).1
      have hand : (p c && p b) = false := by
        cases hc : p c <;> cases hb : p b <;> simp_all
      have htl : Collapsed p rep (b :: bs) := collapsed_tail p rep c _ hcol
      by_cases hp : p c
      · have hcr : c = rep := hcol.1 c (by simp) hp
        rw [show collapseClass p rep (c :: b :: bs) =
            (if p c then rep else c) :: collapseClass p rep (b :: bs) by
          simp only [collapseClass, hand]
          rfl]
        rw [ih htl, if_pos hp, hcr]
      · rw [show collapseClass p rep (c :: b :: bs) =
            (if p c then rep else c) :: collapseClass p rep (b :: bs) by
          simp only [collapseClass, hand]
          rfl]
        rw [ih htl, if_neg hp]

/-- A leading drop preserves collapsed normal form. -/
theorem collapsed_dropWhile (p : Char → Bool) (rep : Char) (l : List Char)
    (h : Collapsed p rep l) : Collapsed p rep (l.dropWhile p) := by
  obtain ⟨t, ht⟩ := List.dropWhile_suffix (l := l) p
  refine ⟨fun x hx hpx =>
    h.1 x ((List.dropWhile_sublist p).subset hx) hpx, ?_⟩
  have h2 := h.2
  rw [← ht] at h2
  exact h2.right_of_append

/-- A trailing drop preserves collapsed normal form. -/
theorem collapsed_dropTrail (p : Char → Bool) (rep : Char) (l : List Char)
    (h : Collapsed p rep l) : Collapsed p rep (dropTrailClass p l) := by
  obtain ⟨t, ht⟩ := dropTrailClass_pre p l
  refine ⟨fun x hx hpx =>
    h.1 x (((dropTrailClass_pre p l).sublist).subset hx) hpx, ?_⟩
  have h2 := h.2
  rw [← ht] at h2
  exact h2.left_of_append

/-- Every character of a run-collapse is the replacement character or an
original character outside the class (fuelled induction). -/
theorem collapseClass_mem_aux (p : Char → Bool) (rep : Char) :
    ∀ (n : Nat) (l : List Char), l.length ≤ n →
      ∀ a ∈ collapseClass p rep l, a = rep ∨ (a ∈ l ∧ p a = false) := by
  intro n
  induction n with
  | zero =>
    intro l hl a ha
    have : l = [] := by
      cases l with
      | nil => rfl
      | cons x xs => simp at hl
    subst this
    simp [collapseClass] at ha
  | succ n ih =>
    intro l hl a ha
    match l with
    | [] => simp [collapseClass] at ha
    | [c] =>
      by_cases hp : p c
      · simp only [collapseClass, hp, if_true] at ha
        left
        simpa using ha
      · simp only [collapseClass, hp, if_false] at ha
        right
        have : a = c := by simpa using ha
        rw [this]
        exact ⟨by simp, by simpa [hp] using hp⟩
    | c1 :: c2 :: cs =>
      have hlen : (c2 :: cs).length ≤ n := by
        simp at hl ⊢
        omega
      by_cases hand : (p c1 && p c2) = true
      · rw [show collapseClass p rep (c1 :: c2 :: cs) =
            collapseClass p rep (c2 :: cs) by simp [collapseClass, hand]] at ha
        rcases ih (c2 :: cs) hlen a ha with h | ⟨hm, hf⟩
        · exact Or.inl h
        · exact Or.inr ⟨List.mem_cons_of_mem _ hm, hf⟩
      · rw [show collapseClass p rep (c1 :: c2 :: cs) =
            (if p c1 then rep else c1) :: collapseClass p rep (c2 :: cs) by
          simp only [collapseClass, hand]
          rfl] at ha
        rcases List.mem_cons.mp ha with h1 | h2
        · by_cases hp1 : p c1
          · rw [if_pos hp1] at h1
            exact Or.inl h1
          · rw [if_neg hp1] at h1
            refine Or.inr ⟨by simp [h1], ?_⟩
            rw [h1]
            cases hpc : p c1
            · rfl
            · exact absurd hpc hp1
        · rcases ih (c2 :: cs) hlen a h2 with h | ⟨hm, hf⟩
          · exact Or.inl h
          · exact Or.inr ⟨List.mem_cons_of_mem _ hm, hf⟩

/-- Character provenance through a run-collapse. -/
theorem collapseClass_mem (p : Char → Bool) (rep : Char) (l : List Char)
    (a : Char) (ha : a ∈ collapseClass p rep l) :
    a = rep ∨ (a ∈ l ∧ p a = false) :=
  collapseClass_mem_aux p rep l.length l le_rfl a ha

/-- The whitespace collapse produces collapsed normal form. -/
theorem collapsed_collapseWs (l : List Char) :
    Collapsed isJsSpace ' ' (collapseWs l) :=
  collapsed_collapse isJsSpace ' ' (by decide) l.length l le_rfl

/-- A normalized-output character is a keep character. -/
theorem outChar_keep (c : Char) (h : isOutChar c = true) : isKeepChar c = true := by
  have h' := h
  simp only [isOutChar, isLowerAlpha, isDigitChar, Bool.or_eq_true,
    Bool.and_eq_true, decide_eq_true_eq, beq_iff_eq] at h'
  simp only [isKeepChar, isLowerAlpha, isDigitChar, isJsSpace, Bool.or_eq_true,
    Bool.and_eq_true, decide_eq_true_eq, beq_iff_eq]
  omega

/-- A normalized-output character is not a combining mark. -/
theorem outChar_not_mark (c : Char) (h : isOutChar c = true) :
    isCombiningMark c = false := by
  have h' := h
  simp only [isOutChar, isLowerAlpha, isDigitChar, Bool.or_eq_true,
    Bool.and_eq_true, decide_eq_true_eq, beq_iff_eq] at h'
  cases hb : isCombiningMark c with
  | false => rfl
  | true =>
    have : 768 ≤ c.toNat ∧ c.toNat ≤ 879 := by
      simpa [isCombiningMark] using hb
    omega

/-- A keep character that is not whitespace is a normalized-output
character. -/
theorem keep_not_space_out (c : Char) (hk : isKeepChar c = true)
    (hs : isJsSpace c = false) : isOutChar c = true := by
  have hk' := hk
  simp only [isKeepChar, isLowerAlpha, isDigitChar, isJsSpace, Bool.or_eq_true,
    Bool.and_eq_true, decide_eq_true_eq, beq_iff_eq] at hk'
  have hs' : ¬(c.toNat = 9 ∨ c.toNat = 10 ∨ c.toNat = 11 ∨ c.toNat = 12 ∨
      c.toNat = 13 ∨ c.toNat = 32 ∨ c.toNat = 160 ∨ c.toNat = 5760 ∨
      (8192 ≤ c.toNat ∧ c.toNat ≤ 8202) ∨ c.toNat = 8232 ∨ c.toNat = 8233 ∨
      c.toNat = 8239 ∨ c.toNat = 8287 ∨ c.toNat = 12288 ∨ c.toNat = 65279) := by
    intro hcon
    have : isJsSpace c = true := by
      simp only [isJsSpace, Bool.or_eq_true, Bool.and_eq_true, decide_eq_true_eq,
        beq_iff_eq]
      omega
    rw [this] at hs
    cases hs
  simp only [isOutChar, isLowerAlpha, isDigitChar, Bool.or_eq_true,
    Bool.and_eq_true, decide_eq_true_eq, beq_iff_eq]
  omega

/-- All characters of a normalized name are output characters: lower-case
ASCII letters, digits, or single spaces. -/
theorem normalizeName_chars (lower : Char → Char) (nfd : Char → List Char)
    (s : List Char) :
    ∀ c ∈ normalizeName lower nfd s, isOutChar c = true := by
  intro c hc
  have hc1 : c ∈ List.dropWhile isJsSpace (collapseWs
      ((removeNoise (((s.map lower).flatMap nfd).filter
        (fun c => !isCombiningMark c))).filter isKeepChar)) :=
    ((dropTrailClass_pre isJsSpace _).sublist).subset hc
  have hc2 : c ∈ collapseWs ((removeNoise (((s.map lower).flatMap nfd).filter
      (fun c => !isCombiningMark c))).filter isKeepChar) :=
    (List.dropWhile_sublist isJsSpace).subset hc1
  rcases collapseClass_mem isJsSpace ' ' _ c hc2 with h | ⟨hmem, hsp⟩
  · rw [h]
    decide
  · exact keep_not_space_out c (List.mem_filter.mp hmem).2 hsp

/-- Pointwise-identity map is the identity. -/
theorem map_id_on (f : Char → Char) :
    ∀ l : List Char, (∀ x ∈ l, f x = x) → l.map f = l := by
  intro l
  induction l with
  | nil => intro _; rfl
  | cons c cs ih =>
    intro h
    simp only [List.map_cons]
    rw [h c (by simp), ih (fun x hx => h x (List.mem_cons_of_mem _ hx))]

/-- Pointwise-singleton flatMap is the identity. -/
theorem flatMap_id_on (g : Char → List Char) :
    ∀ l : List Char, (∀ x ∈ l, g x = [x]) → l.flatMap g = l := by
  intro l
  induction l with
  | nil => intro _; rfl
  | cons c cs ih =>
    intro h
    simp only [List.flatMap_cons]
    rw [h c (by simp), ih (fun x hx => h x (List.mem_cons_of_mem _ hx))]
    rfl

/-- The ASCII lower-caser fixes every normalized-output character. -/
theorem asciiLower_out (c : Char) (h : isOutChar c = true) : asciiLower c = c := by
  have h' := h
  simp only [isOutChar, isLowerAlpha, isDigitChar, Bool.or_eq_true,
    Bool.and_eq_true, decide_eq_true_eq, beq_iff_eq] at h'
  unfold asciiLower
  rw [if_neg]
  simp only [Bool.and_eq_true, decide_eq_true_eq, not_and]
  omega

/-- C5 counterexample: normalize("fe1234st") = "fest" (the four-digit year
removal splices "fe" and "st" into a fresh noise token), and a second
application removes it, so normalize is not idempotent. -/
theorem normalizeName_not_idempotent_counterexample :
    normalizeName asciiLower asciiNFD "fe1234st".toList = "fest".toList ∧
    normalizeName asciiLower asciiNFD
        (normalizeName asciiLower asciiNFD "fe1234st".toList) ≠
      normalizeName asciiLower asciiNFD "fe1234st".toList := by
  constructor <;>
    simp +decide [normalizeName, removeNoise, collapseWs, collapseClass, trimWs,
      dropTrailClass, asciiLower, asciiNFD, isCombiningMark, isKeepChar,
      isJsSpace, isDigitChar, isLowerAlpha, List.isPrefixOf]

/-- C5 (amended): the normalizer is pure and deterministic (it is a function
of its input alone), but idempotent only conditionally: whenever a single
pass leaves no further removable noise token (no occurrence of `festival`,
`fest`, `edition` or four consecutive digits) in its output, a second pass is
the identity.  The Unicode runtime operations are only assumed to fix the
ASCII output alphabet, as Unicode specifies. -/
theorem normalizeName_conditional_idempotent (lower : Char → Char)
    (nfd : Char → List Char)
    (hl : ∀ c, isOutChar c = true → lower c = c)
    (hn : ∀ c, isOutChar c = true → nfd c = [c])
    (s : List Char)
    (hs : removeNoise (normalizeName lower nfd s) = normalizeName lower nfd s) :
    normalizeName lower nfd (normalizeName lower nfd s) =
      normalizeName lower nfd s := by
  have hchars := normalizeName_chars lower nfd s
  have h1 : (normalizeName lower nfd s).map lower = normalizeName lower nfd s :=
    map_id_on lower _ (fun x hx => hl x (hchars x hx))
  have h2 : (normalizeName lower nfd s).flatMap nfd = normalizeName lower nfd s :=
    flatMap_id_on nfd _ (fun x hx => hn x (hchars x hx))
  have h3 : (normalizeName lower nfd s).filter (fun c => !isCombiningMark c) =
      normalizeName lower nfd s :=
    List.filter_eq_self.mpr (fun a ha => by
      rw [outChar_not_mark a (hchars a ha)]
      rfl)
  have h5 : (normalizeName lower nfd s).filter isKeepChar =
      normalizeName lower nfd s :=
    List.filter_eq_self.mpr (fun a ha => outChar_keep a (hchars a ha))
  have hcoll : Collapsed isJsSpace ' ' (normalizeName lower nfd s) :=
    collapsed_dropTrail isJsSpace ' ' _
      (collapsed_dropWhile isJsSpace ' ' _ (collapsed_collapseWs _))
  have h6 : collapseWs (normalizeName lower nfd s) = normalizeName lower nfd s :=
    collapse_eq_self isJsSpace ' ' _ hcoll
  have h7 : trimWs (normalizeName lower nfd s) = normalizeName lower nfd s :=
    trimWs_idem _
  show trimWs (collapseWs ((removeNoise
      ((((normalizeName lower nfd s).map lower).flatMap nfd).filter
        (fun c => !isCombiningMark c))).filter isKeepChar)) =
    normalizeName lower nfd s
  rw [h1, h2, h3, hs, h5, h6, h7]

/-- C5 witness: "rabat" normalizes to itself with no residual noise token,
and a second normalization pass is the identity on it. -/
theorem normalizeName_conditional_idempotent_witness :
    removeNoise (normalizeName asciiLower asciiNFD "rabat".toList) =
      normalizeName asciiLower asciiNFD "rabat".toList ∧
    normalizeName asciiLower asciiNFD
        (normalizeName asciiLower asciiNFD "rabat".toList) =
      normalizeName asciiLower asciiNFD "rabat".toList := by
  have hs : removeNoise (normalizeName asciiLower asciiNFD "rabat".toList) =
      normalizeName asciiLower asciiNFD "rabat".toList := by
    simp +decide [normalizeName, removeNoise, collapseWs, collapseClass, trimWs,
      dropTrailClass, asciiLower, asciiNFD, isCombiningMark, isKeepChar,
      isJsSpace, isDigitChar, isLowerAlpha, List.isPrefixOf]
  exact ⟨hs, normalizeName_conditional_idempotent asciiLower asciiNFD
    (fun c h => asciiLower_out c h) (fun _ _ => rfl) "rabat".toList hs⟩
